import Mathlib

set_option autoImplicit false

/-!
Verification of the Solver_GTO poker engine against its specification.

This file is a shallow embedding, in Lean 4, of the parts of the C++
sources that the specification claims talk about:

* `src/game_state.cpp` / `game_state.h`  — the No-Limit Hold'em rules engine
  (`GameState`): blind/ante posting, `apply_action`, round closure,
  street advancement, history strings;
* `src/action_abstraction.cpp` — `get_possible_action_specs` and
  `get_action_amount`;
* `src/info_set.cpp` — infoset key generation;
* `src/cfr_engine.cpp` — regret matching, the recursive CFR traversal
  (`cfr_plus_recursive`), terminal payoff with side pots, and the JSON
  checkpoint save/load;
* `include/node.h` — `Node` and its JSON (de)serialization.

Machine integers (`int`, `long long`) are embedded as `Int`; every value
involved stays far below 2^31 so overflow never occurs on the inputs we
evaluate.  C++ `double` values are embedded as `ℚ`; in every computation the
claims touch, the double arithmetic performed by the code is exact (integers
below 2^53, and divisions of the form `(a*k)/k` whose true quotient is an
exactly-representable integer), so the rational model is faithful there.
`std::vector<T>` indexed by player becomes `List T` with total accessors;
out-of-range accesses (undefined behaviour in C++) are modelled as reads of a
default and no-op writes, and never occur on the states the claims evaluate.
Exceptions become an `Option String` error component: `apply_action` returns
the (possibly already partially mutated) state together with the error, which
mirrors the C++ semantics where the mutations preceding a `throw` persist in
the object.
-/

namespace GtoSolver

/-- Cards are strings such as `"As"`, exactly as in `game_state.h`
(`using Card = std::string`). -/
abbrev Card := String

/-- `Street` from `game_state.h`.  `static_cast<int>` order:
PREFLOP=0, FLOP=1, TURN=2, RIVER=3, SHOWDOWN=4. -/
inductive Street where
  | PREFLOP
  | FLOP
  | TURN
  | RIVER
  | SHOWDOWN
  deriving DecidableEq, Repr

/-- Integer value of a street, as produced by `static_cast<int>(street)`. -/
def Street.toInt : Street → Int
  | .PREFLOP => 0
  | .FLOP => 1
  | .TURN => 2
  | .RIVER => 3
  | .SHOWDOWN => 4

/-- `Action::Type` from `game_state.h` (FOLD, CALL, RAISE, CHECK, BET). -/
inductive ActTy where
  | FOLD
  | CALL
  | RAISE
  | CHECK
  | BET
  deriving DecidableEq, Repr

/-- `Action` from `game_state.h`: a type, a total street commitment
(`amount`, meaningful for BET/RAISE), and the acting player index. -/
structure Action where
  type : ActTy
  amount : Int := 0
  player : Int := -1
  deriving DecidableEq, Repr

/-- `SMALL_BLIND_AMOUNT` from `game_state.cpp`. -/
def SMALL_BLIND_AMOUNT : Int := 1

/-- `BIG_BLIND_AMOUNT` from `game_state.cpp` (also `BIG_BLIND_SIZE` in
`action_abstraction.cpp`). -/
def BIG_BLIND_AMOUNT : Int := 2

/-! ### Total accessors for player-indexed vectors

`gi`/`gb` read an `Int`/`Bool` vector at a `Nat` index, `giI`/`gbI` at an
`Int` index; `si`/`sb`/`siI`/`sbI` write.  A negative or out-of-range index
is undefined behaviour in C++; it is modelled as default-read / no-op-write
and never arises on the states the theorems below evaluate. -/

def gi (l : List Int) (i : Nat) : Int := l.getD i 0

def gb (l : List Bool) (i : Nat) : Bool := l.getD i false

def si (l : List Int) (i : Nat) (x : Int) : List Int := l.set i x

def sbool (l : List Bool) (i : Nat) (x : Bool) : List Bool := l.set i x

def giI (l : List Int) (i : Int) : Int := if 0 ≤ i then gi l i.toNat else 0

def gbI (l : List Bool) (i : Int) : Bool := if 0 ≤ i then gb l i.toNat else false

def siI (l : List Int) (i : Int) (x : Int) : List Int :=
  if 0 ≤ i then si l i.toNat x else l

def sbI (l : List Bool) (i : Int) (x : Bool) : List Bool :=
  if 0 ≤ i then sbool l i.toNat x else l

/-- The `GameState` data of `game_state.h`, field for field. -/
structure GameState where
  numPlayers : Nat
  currentPlayer : Int
  pot : Int
  playerStacks : List Int
  betsThisRound : List Int
  hands : List (List Card)
  communityCards : List Card
  street : Street
  history : List Action
  gameOver : Bool
  lastRaiseSize : Int
  aggressor : Int
  actionsThisRound : Int
  folded : List Bool
  allIn : List Bool
  contributions : List Int
  anteSize : Int
  button : Nat
  acted : List Bool
  deriving DecidableEq, Repr

namespace GameState

/-- The bet to match: `max_bet` computed as in `get_amount_to_call`
(fold of `std::max` starting from 0). -/
def maxBet (s : GameState) : Int := s.betsThisRound.foldl max 0

/-- `GameState::get_amount_to_call`. -/
def getAmountToCall (s : GameState) (i : Int) : Int :=
  if i < 0 ∨ s.numPlayers ≤ i ∨ gbI s.folded i ∨ gbI s.allIn i then 0
  else min (s.maxBet - giI s.betsThisRound i) (giI s.playerStacks i)

/-- `GameState::get_bet_this_round`. -/
def getBetThisRound (s : GameState) (i : Int) : Int :=
  if i < 0 ∨ s.numPlayers ≤ i then 0 else giI s.betsThisRound i

/-- `GameState::get_player_contribution`. -/
def getPlayerContribution (s : GameState) (i : Int) : Int :=
  if i < 0 ∨ s.numPlayers ≤ i then 0 else giI s.contributions i

/-- `GameState::has_player_folded` (invalid index counts as folded). -/
def hasPlayerFolded (s : GameState) (i : Int) : Bool :=
  if i < 0 ∨ s.numPlayers ≤ i then true else gbI s.folded i

/-- `GameState::is_player_all_in` (invalid index counts as not all-in). -/
def isPlayerAllIn (s : GameState) (i : Int) : Bool :=
  if i < 0 ∨ s.numPlayers ≤ i then false else gbI s.allIn i

/-- Number of unfolded players, as counted in `is_terminal` and
`update_next_player`. -/
def activePlayers (s : GameState) : Nat :=
  ((List.range s.numPlayers).filter (fun i => ¬ gb s.folded i)).length

/-- The aggressor-based round-closure test of `is_terminal`
(`actions_this_round_ > 0 && aggressor_this_round_ != -1` branch):
walk the players after the aggressor; the round is open iff some
non-skipped player has not matched the aggressor's bet or has not
acted this sequence. -/
def bettingOverAggr (s : GameState) : Bool :=
  ¬ (List.range s.numPlayers).any (fun i =>
      let idx : Int := (s.aggressor + 1 + (i : Int)) % (s.numPlayers : Int)
      if gbI s.folded idx ∨ (gbI s.allIn idx ∧ idx ≠ s.aggressor) then false
      else giI s.betsThisRound idx < giI s.betsThisRound s.aggressor ∨ ¬ gbI s.acted idx)

/-- The no-aggression round-closure test of `is_terminal`
(`aggressor_this_round_ == -1` branch): closed iff every unfolded,
non-all-in player has acted this sequence. -/
def bettingOverNoAggr (s : GameState) : Bool :=
  ¬ (List.range s.numPlayers).any (fun i =>
      ¬ gb s.folded i ∧ ¬ gb s.allIn i ∧ ¬ gb s.acted i)

/-- `GameState::is_terminal`. -/
def isTerminal (s : GameState) : Bool :=
  if s.gameOver then true
  else if s.activePlayers ≤ 1 then true
  else if s.street = .SHOWDOWN then true
  else
    let bettingOver :=
      if s.actionsThisRound > 0 ∧ s.aggressor ≠ -1 then s.bettingOverAggr
      else if s.actionsThisRound > 0 ∧ s.aggressor = -1 then s.bettingOverNoAggr
      else false
    bettingOver ∧ s.street = .RIVER

/-- `GameState::get_effective_stack`. -/
def getEffectiveStack (s : GameState) (i : Int) : Int :=
  if i < 0 ∨ s.numPlayers ≤ i then 0
  else
    let own := giI s.playerStacks i + giI s.betsThisRound i
    let opp := (List.range s.numPlayers).foldl
      (fun acc j =>
        if Int.ofNat j ≠ i ∧ ¬ gb s.folded j then
          min acc (gi s.playerStacks j + gi s.betsThisRound j)
        else acc)
      ((2:Int) ^ 31 - 1)
    if opp = (2:Int) ^ 31 - 1 then giI s.playerStacks i else min own opp

/-- `GameState::get_raises_this_street`: counts every RAISE or BET in the
whole history, and preflop with no voluntary CALL/RAISE yet counts the big
blind post as the first raise level. -/
def getRaisesThisStreet (s : GameState) : Int :=
  let raiseCount : Int :=
    s.history.foldl (fun acc a =>
      if a.type = .RAISE ∨ a.type = .BET then acc + 1 else acc) 0
  if s.street = .PREFLOP ∧ raiseCount = 0 then
    let voluntary := s.history.any (fun a => a.type = .CALL ∨ a.type = .RAISE)
    if voluntary then raiseCount else 1
  else raiseCount

/-- `GameState::is_first_to_act_preflop`. -/
def isFirstToActPreflop (s : GameState) (i : Int) : Bool :=
  if s.street ≠ .PREFLOP then false
  else if s.history.any (fun a => a.type = .CALL ∨ a.type = .RAISE) then false
  else i = s.currentPlayer

/-- `GameState::get_num_limpers`: before any raise, every CALL not made by
the big blind counts as a limp. -/
def getNumLimpers (s : GameState) : Int :=
  if s.street ≠ .PREFLOP then 0
  else
    let bbIndex : Int :=
      if s.numPlayers = 2 then ((s.button + 1) % s.numPlayers : Nat)
      else ((s.button + 2) % s.numPlayers : Nat)
    let raiseOccurred := s.history.any (fun a => a.type = .RAISE)
    let limpers : Int := s.history.foldl (fun acc a =>
      if a.type = .CALL ∧ a.player ≠ bbIndex then acc + 1 else acc) 0
    if raiseOccurred then 0 else limpers

/-- `GameState::get_history_string` token for a single action:
`f`, `k`, `c`, `b<amount>`, `r<amount>`. -/
def tokenOf (a : Action) : List Char :=
  match a.type with
  | .FOLD => ['f']
  | .CHECK => ['k']
  | .CALL => ['c']
  | .BET => 'b' :: (toString a.amount).data
  | .RAISE => 'r' :: (toString a.amount).data

/-- The character sequence `GameState::get_history_string` builds: each
token followed by a `'_'` separator, with the trailing separator popped. -/
def historyChars (acts : List Action) : List Char :=
  (acts.foldl (fun acc a => acc ++ tokenOf a ++ ['_']) []).dropLast

/-- `GameState::get_history_string`. -/
def getHistoryString (s : GameState) : String :=
  String.mk (historyChars s.history)

/-- One blind post from `post_antes_and_blinds`: deduct
`min(amount, stack)`, assign it to `bets_this_round`, add it to the
contribution and the pot, and mark all-in when the stack reaches 0. -/
def postBlind (st : GameState) (idx : Nat) (amt : Int) : GameState :=
  let post := min amt (gi st.playerStacks idx)
  let st := { st with
    playerStacks := si st.playerStacks idx (gi st.playerStacks idx - post),
    betsThisRound := si st.betsThisRound idx post,
    contributions := si st.contributions idx (gi st.contributions idx + post),
    pot := st.pot + post }
  if gi st.playerStacks idx = 0 then { st with allIn := sbool st.allIn idx true } else st

/-- One iteration of the ante loop of `post_antes_and_blinds`. -/
def anteStep (st : GameState) (i : Nat) : GameState :=
  let ante := min st.anteSize (gi st.playerStacks i)
  let st := { st with
    playerStacks := si st.playerStacks i (gi st.playerStacks i - ante),
    contributions := si st.contributions i (gi st.contributions i + ante),
    pot := st.pot + ante }
  if gi st.playerStacks i = 0 then { st with allIn := sbool st.allIn i true } else st

/-- The ante loop of `post_antes_and_blinds`. -/
def postAntes (st : GameState) : GameState :=
  if st.anteSize > 0 then (List.range st.numPlayers).foldl anteStep st
  else st

/-- `GameState::post_antes_and_blinds`. -/
def postAntesAndBlinds (st : GameState) (sbIdx bbIdx : Nat) (sbAmt bbAmt : Int) :
    GameState :=
  let st := postAntes st
  let st := postBlind st sbIdx sbAmt
  let st := postBlind st bbIdx bbAmt
  let lrs := bbAmt - sbAmt
  let lrs := if st.numPlayers = 2 then bbAmt - sbAmt
             else if sbIdx = bbIdx then bbAmt else lrs
  let lrs := max lrs bbAmt
  { st with lastRaiseSize := lrs, aggressor := (bbIdx : Int), actionsThisRound := 0,
            acted := List.replicate st.numPlayers false }

/-- The skip-players loop shared by the constructor and
`advance_to_next_street`: starting at `cur`, return the first player that
is neither all-in nor folded; `none` when the walk wraps back to `start`
without finding one. -/
def searchActor (s : GameState) (start : Nat) : Nat → Nat → Option Nat
  | _, 0 => none
  | cur, fuel + 1 =>
    if ¬ (gb s.allIn cur ∨ gb s.folded cur) then some cur
    else
      let nxt := (cur + 1) % s.numPlayers
      if nxt = start then none else searchActor s start nxt fuel

/-- The `GameState` constructor `GameState::GameState(num_players,
initial_stack, ante_size, button_position)`.  The two
`std::invalid_argument` validations are carried as hypotheses of the
theorems that use reachable states. -/
def mkBase (numPlayers : Nat) (initialStack : Int) (anteSize : Int)
    (buttonPosition : Nat) : GameState := {
  numPlayers := numPlayers
  currentPlayer := -1
  pot := 0
  playerStacks := List.replicate numPlayers initialStack
  betsThisRound := List.replicate numPlayers 0
  hands := List.replicate numPlayers []
  communityCards := []
  street := .PREFLOP
  history := []
  gameOver := false
  lastRaiseSize := 0
  aggressor := -1
  actionsThisRound := 0
  folded := List.replicate numPlayers false
  allIn := List.replicate numPlayers false
  contributions := List.replicate numPlayers 0
  anteSize := anteSize
  button := buttonPosition
  acted := List.replicate numPlayers false }

/-- The small-blind seat chosen by the constructor. -/
def sbIndex (numPlayers buttonPosition : Nat) : Nat :=
  if numPlayers = 2 then buttonPosition else (buttonPosition + 1) % numPlayers

/-- The big-blind seat chosen by the constructor. -/
def bbIndex (numPlayers buttonPosition : Nat) : Nat :=
  if numPlayers = 2 then (buttonPosition + 1) % numPlayers
  else (buttonPosition + 2) % numPlayers

/-- The seat at which the constructor starts its first-actor walk. -/
def firstIndex (numPlayers buttonPosition : Nat) : Nat :=
  if numPlayers = 2 then sbIndex numPlayers buttonPosition
  else (bbIndex numPlayers buttonPosition + 1) % numPlayers

def mkGameState (numPlayers : Nat) (initialStack : Int) (anteSize : Int)
    (buttonPosition : Nat) : GameState :=
  let st := postAntesAndBlinds (mkBase numPlayers initialStack anteSize buttonPosition)
    (sbIndex numPlayers buttonPosition) (bbIndex numPlayers buttonPosition)
    SMALL_BLIND_AMOUNT BIG_BLIND_AMOUNT
  match searchActor st (firstIndex numPlayers buttonPosition)
      (firstIndex numPlayers buttonPosition) (numPlayers + 1) with
  | some c => { st with currentPlayer := (c : Int) }
  | none => { st with gameOver := true, currentPlayer := -1 }

/-- `GameState::reset_bets_for_new_street`. -/
def resetBetsForNewStreet (s : GameState) : GameState :=
  { s with betsThisRound := List.replicate s.numPlayers 0,
           lastRaiseSize := 0, aggressor := -1, actionsThisRound := 0,
           acted := List.replicate s.numPlayers false }

/-- The street successor used by `advance_to_next_street`. -/
def nextStreet : Street → Street
  | .PREFLOP => .FLOP
  | .FLOP => .TURN
  | .TURN => .RIVER
  | st => st

/-- The bet reset and street bump `advance_to_next_street` performs before
searching for the next actor. -/
def streetAdvanced (s : GameState) : GameState :=
  { resetBetsForNewStreet s with
      street := nextStreet (resetBetsForNewStreet s).street }

/-- `GameState::advance_to_next_street`. -/
def advanceToNextStreet (s : GameState) : GameState :=
  if s.street = .RIVER ∨ s.street = .SHOWDOWN then
    { s with street := .SHOWDOWN, gameOver := true, currentPlayer := -1 }
  else
    match searchActor (streetAdvanced s)
        (((streetAdvanced s).button + 1) % (streetAdvanced s).numPlayers)
        (((streetAdvanced s).button + 1) % (streetAdvanced s).numPlayers)
        ((streetAdvanced s).numPlayers + 1) with
    | some c => { streetAdvanced s with currentPlayer := (c : Int) }
    | none =>
      -- the walk wrapped: every remaining player is all-in (or folded);
      -- the loop leaves `current_player_index_` at the wrapped start value,
      -- except on the river where the game ends
      if (streetAdvanced s).street = .RIVER then
        { streetAdvanced s with
            street := .SHOWDOWN, gameOver := true, currentPlayer := -1 }
      else
        { streetAdvanced s with
            currentPlayer :=
              ((((streetAdvanced s).button + 1) % (streetAdvanced s).numPlayers : Nat) : Int) }

/-- The needs-to-act walk of `update_next_player`, starting one seat after
the actor: skip folded and all-in players; stop at the first player that
(with aggression) has not acted or has not matched the max bet, or (without
aggression) has not acted. -/
def findNeedsToAct (s : GameState) (mb : Int) : Nat → Nat → Option Nat
  | _, 0 => none
  | nxt, fuel + 1 =>
    if gb s.folded nxt ∨ gb s.allIn nxt then
      findNeedsToAct s mb ((nxt + 1) % s.numPlayers) fuel
    else
      let needs :=
        if s.aggressor ≠ -1 then ¬ gb s.acted nxt ∨ gi s.betsThisRound nxt < mb
        else ¬ gb s.acted nxt
      if needs then some nxt else findNeedsToAct s mb ((nxt + 1) % s.numPlayers) fuel

/-- `GameState::update_next_player`. -/
def updateNextPlayer (s : GameState) : GameState :=
  if s.gameOver then { s with currentPlayer := -1 }
  else if s.activePlayers ≤ 1 then
    let s := { s with gameOver := true, currentPlayer := -1 }
    if s.street = .RIVER then { s with street := .SHOWDOWN } else s
  else
    let mb := s.maxBet
    let startAt := ((s.currentPlayer + 1) % (s.numPlayers : Int)).toNat
    match findNeedsToAct s mb startAt s.numPlayers with
    | some nxt => { s with currentPlayer := (nxt : Int) }
    | none => { s with currentPlayer := -1 }

/-- The `switch` body of `apply_action` (after the action has been recorded):
returns the mutated state and, for the `throw` paths, the error.  The state
accompanying an error is the one the C++ object holds when the exception
propagates. -/
def applySwitch (s : GameState) (a : Action) : GameState × Option String :=
  let p := a.player
  match a.type with
  | .FOLD => ({ s with folded := sbI s.folded p true }, none)
  | .CHECK =>
    if s.getAmountToCall p > 0 then
      (s, some "Invalid action: Check when facing a bet.")
    else ({ s with aggressor := -1 }, none)
  | .CALL =>
    let callAmount := s.getAmountToCall p
    let s :=
      if callAmount = 0 ∧ giI s.betsThisRound p > 0 then s
      else if callAmount > 0 then
        let amountPutIn := min callAmount (giI s.playerStacks p)
        let s := { s with
          playerStacks := siI s.playerStacks p (giI s.playerStacks p - amountPutIn),
          betsThisRound := siI s.betsThisRound p (giI s.betsThisRound p + amountPutIn),
          contributions := siI s.contributions p (giI s.contributions p + amountPutIn),
          pot := s.pot + amountPutIn }
        if giI s.playerStacks p = 0 then { s with allIn := sbI s.allIn p true } else s
      else s
    if s.aggressor = -1 then
      -- recover the aggressor as the player with the strictly largest bet
      let agg := (List.range s.numPlayers).foldl
        (fun acc i =>
          if gi s.betsThisRound i > acc.1 then (gi s.betsThisRound i, (i : Int)) else acc)
        ((0 : Int), (-1 : Int))
      ({ s with aggressor := agg.2 }, none)
    else (s, none)
  | .BET | .RAISE =>
    if a.type = .BET ∧ s.getAmountToCall p > 0 then
      (s, some "Invalid action: Bet when facing a bet (should be Raise).")
    else
      -- a RAISE with nothing to call is only warned about and treated as a bet
      let amountCommittedTotal := a.amount
      let currentBet := giI s.betsThisRound p
      let additionalAmount := amountCommittedTotal - currentBet
      if additionalAmount ≤ 0 then
        (s, some "Invalid bet/raise amount: Must be greater than current bet.")
      else
        let clamp := additionalAmount > giI s.playerStacks p
        let additionalAmount := if clamp then giI s.playerStacks p else additionalAmount
        let amountCommittedTotal :=
          if clamp then currentBet + additionalAmount else amountCommittedTotal
        let callAmount := s.getAmountToCall p
        let raiseIncrement := amountCommittedTotal - (currentBet + callAmount)
        let minIncrement := if s.lastRaiseSize > 0 then s.lastRaiseSize else BIG_BLIND_AMOUNT
        let isAllInCommit := additionalAmount = giI s.playerStacks p
        if ¬ isAllInCommit ∧ raiseIncrement < minIncrement then
          (s, some "Invalid raise amount: Raise increment is less than minimum")
        else
          let s := { s with
            playerStacks := siI s.playerStacks p (giI s.playerStacks p - additionalAmount),
            betsThisRound := siI s.betsThisRound p (giI s.betsThisRound p + additionalAmount),
            contributions := siI s.contributions p (giI s.contributions p + additionalAmount),
            pot := s.pot + additionalAmount }
          let s := if giI s.playerStacks p = 0 then { s with allIn := sbI s.allIn p true } else s
          ({ s with
              lastRaiseSize := raiseIncrement,
              aggressor := p,
              actionsThisRound := 1,
              acted := sbI (List.replicate s.numPlayers false) p true }, none)

/-- The river round-closure recheck performed by `apply_action` when the
state became terminal (lines guarding the implicit move to SHOWDOWN). -/
def riverBettingOver (s : GameState) : Bool :=
  let mb := s.maxBet
  let counts := (List.range s.numPlayers).foldl
    (fun (acc : Nat × Nat) i =>
      if ¬ gb s.folded i then
        if gb s.allIn i ∨ gi s.betsThisRound i = mb then (acc.1 + 1, acc.2 + 1)
        else (acc.1 + 1, acc.2)
      else (acc.1, acc.2 + 1))
    (0, 0)
  counts.1 ≤ 1 ∨ counts.1 = counts.2

/-- The post-switch tail of `apply_action`: terminality check, the river
SHOWDOWN move, next-player update, and street advancement. -/
def postProcess (s : GameState) : GameState :=
  if s.isTerminal then
    let s2 := { s with gameOver := true, currentPlayer := -1 }
    if s.street = .RIVER ∧ riverBettingOver s2 then { s2 with street := .SHOWDOWN }
    else s2
  else
    let s3 := updateNextPlayer s
    if s3.currentPlayer = -1 then advanceToNextStreet s3 else s3

/-- The mutations `apply_action` performs before entering the switch:
record the action in the history, mark the player as having acted this
sequence, and bump the per-round action counter. -/
def recordAction (s : GameState) (a : Action) : GameState :=
  { s with
    history := s.history ++ [a],
    acted := sbI s.acted a.player true,
    actionsThisRound := s.actionsThisRound + 1 }

/-- `GameState::apply_action`.  Returns the state the object holds after the
call together with the error message of the exception, if one was thrown;
mutations performed before a `throw` persist. -/
def applyAction (s : GameState) (a : Action) : GameState × Option String :=
  if s.gameOver then (s, none)
  else if a.player ≠ s.currentPlayer then
    (s, some "Action applied by wrong player.")
  else
    match applySwitch (recordAction s a) a with
    | (s2, some e) => (s2, some e)
    | (s2, none) => (postProcess s2, none)

/-- Modelled from the spec: `GameState::get_last_raiser` is called by
`action_abstraction.cpp` (only inside the HU BB-vs-SB-open test) but is
declared nowhere under `src/`; §4.2 of the specification asks whether the
single raise so far came from the SB opener, so the model returns the
player of the most recent RAISE in the history (−1 when none).  Every
concrete state evaluated below short-circuits before this value is used. -/
def getLastRaiser (s : GameState) : Int :=
  s.history.foldl (fun acc a => if a.type = .RAISE then a.player else acc) (-1)

end GameState

/-- Truncation of a rational toward zero: the semantics of C++
`static_cast<int>`/`static_cast<long long>` on a `double`. -/
def cppTrunc (q : ℚ) : Int := q.num.tdiv (q.den : Int)

/-- `ActionType` from `action_abstraction.h`
(FOLD=0, CHECK=1, CALL=2, BET=3, RAISE=4, ALL_IN=5). -/
inductive SpecType where
  | FOLD
  | CHECK
  | CALL
  | BET
  | RAISE
  | ALL_IN
  deriving DecidableEq, Repr

/-- Enum value of a `SpecType`, used by `ActionSpec::operator<`. -/
def SpecType.rank : SpecType → Nat
  | .FOLD => 0
  | .CHECK => 1
  | .CALL => 2
  | .BET => 3
  | .RAISE => 4
  | .ALL_IN => 5

/-- `SizingUnit` from `action_abstraction.h` (BB=0, PCT_POT=1,
MULTIPLIER_X=2, ABSOLUTE=3). -/
inductive SizingUnit where
  | BB
  | PCT_POT
  | MULTIPLIER_X
  | ABSOLUTE
  deriving DecidableEq, Repr

/-- Enum value of a `SizingUnit`. -/
def SizingUnit.rank : SizingUnit → Nat
  | .BB => 0
  | .PCT_POT => 1
  | .MULTIPLIER_X => 2
  | .ABSOLUTE => 3

/-- `ActionSpec` from `action_abstraction.h`.  The `double value` is
embedded as `ℚ`; every value the code inserts (2.0 … 4.0, 33 … 133) is
used only in exact comparisons and truncations where the double and the
rational agree. -/
structure ActionSpec where
  type : SpecType
  value : ℚ := 0
  unit : SizingUnit := .BB
  deriving DecidableEq, Repr

/-- `ActionSpec::operator<`: lexicographic on (type, unit, value). -/
def specLt (a b : ActionSpec) : Bool :=
  if a.type ≠ b.type then a.type.rank < b.type.rank
  else if a.unit ≠ b.unit then a.unit.rank < b.unit.rank
  else a.value < b.value

/-- `std::set<ActionSpec>` insertion: ordered by `specLt`, keeping the
existing element when an equivalent one (neither less nor greater) is
already present. -/
def setInsert : List ActionSpec → ActionSpec → List ActionSpec
  | [], x => [x]
  | y :: ys, x =>
    if specLt x y then x :: y :: ys
    else if specLt y x then y :: setInsert ys x
    else y :: ys

/-- `std::set<ActionSpec>::erase(key)`: removes the element equivalent to
the key, if present. -/
def setErase : List ActionSpec → ActionSpec → List ActionSpec
  | [], _ => []
  | y :: ys, x =>
    if ¬ specLt x y ∧ ¬ specLt y x then ys else y :: setErase ys x

namespace ActionAbstraction

open GameState

/-- `BIG_BLIND_SIZE` from `action_abstraction.cpp`. -/
def BIG_BLIND_SIZE : Int := 2

/-- `ActionAbstraction::get_action_amount(spec, state)`: the total street
commitment implied by an abstract action spec, or −1 for
FOLD/CHECK/CALL and for error paths. -/
def getActionAmount (spec : ActionSpec) (s : GameState) : Int :=
  let currentPlayer := s.currentPlayer
  if currentPlayer < 0 then -1
  else
    let playerStack := giI s.playerStacks currentPlayer
    let amountToCall := s.getAmountToCall currentPlayer
    let currentBet := s.getBetThisRound currentPlayer
    match spec.type with
    | .FOLD | .CHECK | .CALL => -1
    | .ALL_IN => playerStack + currentBet
    | .BET =>
      if amountToCall ≠ 0 then -1
      else
        let target : Int :=
          match spec.unit with
          | .PCT_POT =>
            let currentPotForBetting := s.pot
            let intermediate := currentPotForBetting * cppTrunc spec.value
            let betIncrement := max 1 ((intermediate + 50).tdiv 100)
            currentBet + betIncrement
          | .BB => cppTrunc (spec.value * (BIG_BLIND_SIZE : ℚ) + 1/2)
          | _ => -2
        if target = -2 then -1
        else
          let minBetIncrement := min playerStack (max 1 BIG_BLIND_SIZE)
          let target := max target (currentBet + minBetIncrement)
          min (playerStack + currentBet) target
    | .RAISE =>
      let potAfterCall :=
        s.pot
          + ((List.range s.numPlayers).foldl
              (fun acc q =>
                if Int.ofNat q ≠ currentPlayer then acc + s.getBetThisRound (Int.ofNat q)
                else acc) 0)
          + (currentBet + amountToCall)
      let raiseBaseAmount := currentBet + amountToCall
      let target : Int :=
        match spec.unit with
        | .BB => cppTrunc (spec.value * (BIG_BLIND_SIZE : ℚ) + 1/2)
        | .PCT_POT =>
          let intermediate := potAfterCall * cppTrunc spec.value
          let raiseIncrement := max 1 ((intermediate + 50).tdiv 100)
          raiseBaseAmount + raiseIncrement
        | .MULTIPLIER_X =>
          let lastBetOrRaiseAmount := s.getAmountToCall currentPlayer + s.getBetThisRound currentPlayer
          let targetRaiseTotal := cppTrunc (spec.value * (lastBetOrRaiseAmount : ℚ) + 1/2)
          let raiseIncrement := max 1 (targetRaiseTotal - raiseBaseAmount)
          raiseBaseAmount + raiseIncrement
        | .ABSOLUTE => -2
      if target = -2 then -1
      else
        let minRaiseIncrement :=
          max 1 (if s.lastRaiseSize > 0 then s.lastRaiseSize else BIG_BLIND_SIZE)
        let minLegalRaiseTotal := raiseBaseAmount + minRaiseIncrement
        let target := max target minLegalRaiseTotal
        min (playerStack + currentBet) target

/-- The type-order map used by the final `std::sort` comparator
(BET and RAISE share rank 3). -/
def typeOrder : SpecType → Nat
  | .FOLD => 0
  | .CHECK => 1
  | .CALL => 2
  | .BET => 3
  | .RAISE => 3
  | .ALL_IN => 4

/-- The `std::sort` comparator of `get_possible_action_specs`: by type
order, then by computed amount inside the BET/RAISE group. -/
def pairLt (a b : ActionSpec × Int) : Bool :=
  let oa := typeOrder a.1.type
  let ob := typeOrder b.1.type
  if oa ≠ ob then oa < ob
  else if oa = 3 then a.2 < b.2
  else false

/-- Stable insertion into a list sorted by `pairLt`.  The C++ `std::sort`
leaves the relative order of comparator-equal elements unspecified; the
stable order is one of its admissible outcomes, and every state evaluated
by a theorem below has comparator-distinct entries, where the outcome is
unique. -/
def sortedInsertPair (x : ActionSpec × Int) :
    List (ActionSpec × Int) → List (ActionSpec × Int)
  | [] => [x]
  | y :: ys => if pairLt x y then x :: y :: ys else y :: sortedInsertPair x ys

/-- The final sort of `get_possible_action_specs`. -/
def sortPairs (l : List (ActionSpec × Int)) : List (ActionSpec × Int) :=
  l.foldl (fun acc x => sortedInsertPair x acc) []

/-- The per-candidate processing of `get_possible_action_specs`: compute
the chip amount, drop amount-calculation failures (except for ALL_IN), and
drop illegally sized bets/raises that are not all-in. -/
def processCandidate (s : GameState) (amountToCall allInAmount : Int)
    (acc : List (ActionSpec × Int)) (spec : ActionSpec) :
    List (ActionSpec × Int) :=
  let currentPlayer := s.currentPlayer
  let playerStack := giI s.playerStacks currentPlayer
  let amount : Int :=
    match spec.type with
    | .BET | .RAISE | .ALL_IN =>
      let a := getActionAmount spec s
      if spec.type = .ALL_IN then allInAmount else a
    | .CALL => s.getBetThisRound currentPlayer + amountToCall
    | .CHECK => s.getBetThisRound currentPlayer
    | .FOLD => -1
  let failed : Bool :=
    match spec.type with
    | .BET | .RAISE => decide (getActionAmount spec s = -1)
    | _ => false
  if failed then acc
  else
    let invalidSizing : Bool :=
      match spec.type with
      | .BET | .RAISE =>
        let currentBet := s.getBetThisRound currentPlayer
        let minLegalTotalBet :=
          match spec.type with
          | .BET => min (currentBet + max 1 BIG_BLIND_SIZE) (currentBet + playerStack)
          | _ =>
            let raiseBaseAmount := currentBet + amountToCall
            let minRaiseIncrement :=
              max 1 (if s.lastRaiseSize > 0 then s.lastRaiseSize else BIG_BLIND_SIZE)
            min (raiseBaseAmount + minRaiseIncrement) (currentBet + playerStack)
        decide (amount < minLegalTotalBet ∧ amount ≠ allInAmount)
      | _ => false
    if invalidSizing then acc else acc ++ [(spec, amount)]

/-- The candidate-generation phase of
`ActionAbstraction::get_possible_action_specs` (the `std::set` of
`ActionSpec`s, before amounts are computed). -/
def candidateSpecs (s : GameState) : List ActionSpec :=
  let currentPlayer := s.currentPlayer
  let playerStack := giI s.playerStacks currentPlayer
  let amountToCall := s.getAmountToCall currentPlayer
  let street := s.street
  let effectiveStack := s.getEffectiveStack currentPlayer
  let effectiveStackBB := effectiveStack.tdiv BIG_BLIND_SIZE
  let cand : List ActionSpec := []
  let cand := if amountToCall > 0 ∧ playerStack > 0 then setInsert cand ⟨.FOLD, 0, .BB⟩ else cand
  let cand :=
    if amountToCall = 0 then setInsert cand ⟨.CHECK, 0, .BB⟩
    else if playerStack ≥ amountToCall then setInsert cand ⟨.CALL, 0, .BB⟩
    else cand
  let cand :=
    if playerStack > 0 ∧ amountToCall ≤ playerStack then
      let facingBetOrRaise := amountToCall > 0
      let numRaises := s.getRaisesThisStreet
      let numLimpers := s.getNumLimpers
      if street = .PREFLOP then
        let sbIndex : Int :=
          if s.numPlayers = 2 then (s.button : Int)
          else (((s.button + 1) % s.numPlayers : Nat) : Int)
        let bbIndex : Int :=
          if s.numPlayers = 2 then (((s.button + 1) % s.numPlayers : Nat) : Int)
          else (((s.button + 2) % s.numPlayers : Nat) : Int)
        if s.numPlayers = 2 ∧ currentPlayer = sbIndex ∧ numRaises = 0 then
          setInsert (setInsert cand ⟨.RAISE, 3, .BB⟩) ⟨.RAISE, 4, .BB⟩
        else
          let isRfiSituation :=
            (¬ facingBetOrRaise ∨ (amountToCall = BIG_BLIND_SIZE ∧ numRaises = 0))
              ∧ numLimpers = 0
          if isRfiSituation then
            if currentPlayer = sbIndex ∧ s.numPlayers > 2 then
              setInsert (setInsert cand ⟨.RAISE, 3, .BB⟩) ⟨.RAISE, 4, .BB⟩
            else if s.isFirstToActPreflop currentPlayer then
              let openSizeBBSmall : ℚ :=
                if effectiveStackBB < 25 then 2
                else if effectiveStackBB < 35 then 21/10
                else 11/5
              setInsert (setInsert (setInsert cand
                ⟨.RAISE, openSizeBBSmall, .BB⟩) ⟨.RAISE, 5/2, .BB⟩) ⟨.RAISE, 3, .BB⟩
            else cand
          else if ¬ facingBetOrRaise ∧ numLimpers > 0 then
            if s.numPlayers = 2 ∧ currentPlayer = bbIndex then
              setInsert (setInsert cand ⟨.RAISE, 3, .BB⟩) ⟨.RAISE, 4, .BB⟩
            else
              setInsert (setInsert cand
                ⟨.RAISE, 3 + (numLimpers : ℚ), .BB⟩) ⟨.RAISE, 4 + (numLimpers : ℚ), .BB⟩
          else if facingBetOrRaise then
            if numRaises = 1 then
              let isBbVsSbOpenHu :=
                s.numPlayers = 2 ∧ currentPlayer = bbIndex ∧ s.getLastRaiser = sbIndex
              if isBbVsSbOpenHu then
                setInsert (setInsert (setInsert cand
                  ⟨.RAISE, 3, .MULTIPLIER_X⟩) ⟨.RAISE, 4, .MULTIPLIER_X⟩) ⟨.ALL_IN, 0, .BB⟩
              else if effectiveStackBB ≤ 40 then setInsert cand ⟨.ALL_IN, 0, .BB⟩
              else cand
            else if numRaises = 2 then
              setInsert (setInsert cand ⟨.RAISE, 5/2, .MULTIPLIER_X⟩) ⟨.ALL_IN, 0, .BB⟩
            else setInsert cand ⟨.ALL_IN, 0, .BB⟩
          else cand
      else
        let cand :=
          if ¬ facingBetOrRaise then
            setInsert (setInsert (setInsert (setInsert (setInsert cand
              ⟨.BET, 33, .PCT_POT⟩) ⟨.BET, 50, .PCT_POT⟩) ⟨.BET, 75, .PCT_POT⟩)
              ⟨.BET, 100, .PCT_POT⟩) ⟨.BET, 133, .PCT_POT⟩
          else
            setInsert (setInsert cand
              ⟨.RAISE, 11/5, .MULTIPLIER_X⟩) ⟨.RAISE, 3, .MULTIPLIER_X⟩
        setInsert cand ⟨.ALL_IN, 0, .BB⟩
    else if playerStack > 0 ∧ amountToCall > 0 ∧ playerStack ≤ amountToCall then
      setInsert (setInsert [] ⟨.FOLD, 0, .BB⟩) ⟨.ALL_IN, 0, .BB⟩
    else cand
  -- specific removal for the HU SB open: drop FOLD when no raise yet
  if street = .PREFLOP ∧ s.numPlayers = 2 ∧ currentPlayer = (s.button : Int)
      ∧ s.getRaisesThisStreet = 0 then
    setErase cand ⟨.FOLD, 0, .BB⟩
  else cand

/-- `ActionAbstraction::get_possible_action_specs`. -/
def getPossibleActionSpecs (s : GameState) : List ActionSpec :=
  let currentPlayer := s.currentPlayer
  if currentPlayer < 0 then []
  else
    let playerStack := giI s.playerStacks currentPlayer
    if playerStack ≤ 0 then []
    else
      let amountToCall := s.getAmountToCall currentPlayer
      let cand := candidateSpecs s
      let allInAmount := playerStack + s.getBetThisRound currentPlayer
      let pairs := cand.foldl (processCandidate s amountToCall allInAmount) []
      (sortPairs pairs).map Prod.fst

end ActionAbstraction

/-! ### Strings as byte sequences

`std::string` comparison is lexicographic on bytes; every string the
program compares (cards, infoset keys) is ASCII, where byte order equals
code-point order. -/

/-- Byte order on characters. -/
def charLtB (a b : Char) : Bool := a.toNat < b.toNat

/-- Lexicographic order on character lists: `std::string::operator<`. -/
def charListLt : List Char → List Char → Bool
  | [], [] => false
  | [], _ :: _ => true
  | _ :: _, [] => false
  | a :: as, b :: bs =>
    if charLtB a b then true
    else if charLtB b a then false
    else charListLt as bs

/-- `operator<` on `std::string`. -/
def strLtB (a b : String) : Bool := charListLt a.data b.data

/-- Sorted insertion of a card into a card list (by string order). -/
def insertCard (c : Card) : List Card → List Card
  | [] => [c]
  | d :: ds => if strLtB c d then c :: d :: ds else d :: insertCard c ds

/-- `std::sort` on a card vector.  The sort key is the full string, ties are
identical strings, so the sorted permutation is unique and insertion sort
computes it. -/
def sortCards (l : List Card) : List Card :=
  l.foldl (fun acc c => insertCard c acc) []

/-- `InfoSet::generate_key` from `info_set.cpp`:
`P<idx>:<sorted hand>|<street int>|<board size><sorted board><-- padding>|<history>`. -/
def generateKey (playerIndex : Int) (hand : List Card) (street : Street)
    (board : List Card) (history : String) : String :=
  "P" ++ toString playerIndex ++ ":"
    ++ String.join (sortCards hand) ++ "|"
    ++ toString street.toInt ++ "|"
    ++ toString board.length ++ String.join (sortCards board)
    ++ String.join (List.replicate (5 - board.length) "--") ++ "|"
    ++ history

/-- `GameState::get_player_hand`, which throws for an invalid index; the
throw is modelled as the empty hand (`cfr_plus_recursive` treats a missing
hand as a zero-utility leaf in any case). -/
def getPlayerHand (s : GameState) (i : Int) : List Card :=
  if 0 ≤ i ∧ i < s.numPlayers then s.hands.getD i.toNat [] else []

/-- Modelled from the spec: `cfr_plus_recursive` builds its infoset with a
two-argument `InfoSet(hand, history_string)` constructor that exists
nowhere under `src/` (`info_set.h` declares only the `(state, player)` and
`(hand, history, state, player)` constructors).  Per §4.3 the key of the
live-state infoset is generated from the acting player, their hole hand,
the street, the board and the history string, which is what both declared
constructors also do. -/
def infoSetKey (s : GameState) : String :=
  generateKey s.currentPlayer (getPlayerHand s s.currentPlayer) s.street
    s.communityCards s.getHistoryString

/-! ### Node and the node table -/

/-- `Node` from `node.h`: per-infoset regret and strategy sums and a visit
counter.  (The node holds no action list.) -/
structure Node where
  regret_sum : List ℚ
  strategy_sum : List ℚ
  visit_count : Int
  deriving DecidableEq, Repr

/-- `Node(num_actions)`: zero-filled arrays. -/
def mkNode (numActions : Nat) : Node :=
  ⟨List.replicate numActions 0, List.replicate numActions 0, 0⟩

/-- `std::map<std::string, Node>`, kept as a key-sorted association list. -/
abbrev NodeMap := List (String × Node)

/-- `node_map_.find(key)`. -/
def mapFind (m : NodeMap) (key : String) : Option Node :=
  (m.find? (fun p => p.1 = key)).map Prod.snd

/-- Store a node under a key: insert at the sorted position, or overwrite
in place (a mutation through the C++ reference into the map). -/
def mapSet : NodeMap → String → Node → NodeMap
  | [], k, v => [(k, v)]
  | (k0, v0) :: rest, k, v =>
    if strLtB k k0 then (k, v) :: (k0, v0) :: rest
    else if strLtB k0 k then (k0, v0) :: mapSet rest k v
    else (k, v) :: rest

/-- `try_emplace`: insert at the sorted position, keeping the existing
entry when the key is already present. -/
def mapEmplace : NodeMap → String → Node → NodeMap
  | [], k, v => [(k, v)]
  | (k0, v0) :: rest, k, v =>
    if strLtB k k0 then (k, v) :: (k0, v0) :: rest
    else if strLtB k0 k then (k0, v0) :: mapEmplace rest k v
    else (k0, v0) :: rest

/-- `get_strategy_from_regrets` (`cfr_engine.cpp`): regret matching.
Positive parts normalised; uniform when no positive regret (the empty
vector stays empty, as in the guarded C++ fill). -/
def getStrategyFromRegrets (regrets : List ℚ) : List ℚ :=
  let positiveRegretSum := regrets.foldl (fun acc r => acc + max 0 r) 0
  if positiveRegretSum > 0 then regrets.map (fun r => max 0 r / positiveRegretSum)
  else List.replicate regrets.length (1 / (regrets.length : ℚ))

/-! ### Terminal payoff (`cfr_plus_recursive`, terminal branch)

The 7-card evaluator is out of the specification's scope (a black-box
`rank7` where lower is better), so the payoff takes the ranking function
as a parameter. -/

/-- The lexicographic `std::pair<double,int>` order used to sort showdown
players by contribution. -/
def payoffPairLt (a b : ℚ × Nat) : Bool :=
  a.1 < b.1 ∨ (a.1 = b.1 ∧ a.2 < b.2)

/-- Sorted insertion for `payoffPairLt` (ties cannot occur: the player
index component is distinct, so the sorted permutation is unique). -/
def insertPair (x : ℚ × Nat) : List (ℚ × Nat) → List (ℚ × Nat)
  | [] => [x]
  | y :: ys => if payoffPairLt x y then x :: y :: ys else y :: insertPair x ys

/-- `std::sort` on the (contribution, player) pairs. -/
def sortPairsByContribution (l : List (ℚ × Nat)) : List (ℚ × Nat) :=
  l.foldl (fun acc x => insertPair x acc) []

/-- Hand ranks for one pot: evaluate every eligible player with a 2-card
hand (others get the sentinel worst rank 9999). -/
def rankOf (rank : List Card → List Card → Int) (s : GameState) (i : Nat) : Int :=
  let hand := s.hands.getD i []
  if hand.length = 2 then rank hand s.communityCards else 9999

/-- Winners of one pot on a complete board: eligible players whose rank
attains the minimum. -/
def winnersByRank (rank : List Card → List Card → Int) (s : GameState)
    (elig : List Nat) : List Nat :=
  let best := elig.foldl (fun b i => min b (rankOf rank s i)) 9999
  elig.filter (fun i => rankOf rank s i = best)

/-- The side-pot loop of the terminal branch of `cfr_plus_recursive`:
walk the sorted (contribution, player) pairs; for each strictly increasing
contribution level with a nonempty eligible set, open a pot of
`(level - last) * |eligible|`, split it among that pot's winners (all
eligible players when the board is incomplete, the best-ranked ones
otherwise), credit the traverser's shares, update the level, and retire
the level-defining player from eligibility.  The two `if`s below are the
loop body's two updates (`total_winnings` and `last_contribution_level`)
written as one recursive step. -/
def potLoop (rank : List Card → List Card → Int) (s : GameState)
    (traversingPlayer : Int) :
    List (ℚ × Nat) → ℚ → List Nat → ℚ → ℚ
  | [], _, _, winnings => winnings
  | (c, idx) :: rest, lastLevel, elig, winnings =>
    potLoop rank s traversingPlayer rest
      (if c > lastLevel ∧ elig ≠ [] then c else lastLevel)
      (elig.filter (fun e => e ≠ idx))
      (if c > lastLevel ∧ elig ≠ [] ∧
          (if s.communityCards.length = 5 then winnersByRank rank s elig else elig) ≠ [] then
        winnings +
          ((if s.communityCards.length = 5 then winnersByRank rank s elig
            else elig).countP (fun w => Int.ofNat w = traversingPlayer) : ℚ) *
            (((c - lastLevel) * (elig.length : ℚ)) /
              ((if s.communityCards.length = 5 then winnersByRank rank s elig
                else elig).length : ℚ))
      else winnings)

/-- The terminal payoff computation of `cfr_plus_recursive` (side pots,
fold refunds, incomplete-board split), for the traversing player. -/
def terminalPayoff (rank : List Card → List Card → Int) (s : GameState)
    (traversingPlayer : Int) : ℚ :=
  let n := s.numPlayers
  let contribution : Int → ℚ := fun i => (s.getPlayerContribution i : ℚ)
  let showdownPlayers := (List.range n).filter (fun i => ¬ s.hasPlayerFolded (Int.ofNat i))
  let totalPotSize : ℚ := (List.range n).foldl (fun acc i => acc + contribution (Int.ofNat i)) 0
  if s.hasPlayerFolded traversingPlayer then -(contribution traversingPlayer)
  else if showdownPlayers.length = 1 then
    totalPotSize - contribution traversingPlayer
  else if showdownPlayers.length > 1 then
    let sortedPlayers :=
      sortPairsByContribution (showdownPlayers.map (fun i => (contribution (Int.ofNat i), i)))
    let totalWinnings := potLoop rank s traversingPlayer sortedPlayers 0 showdownPlayers 0
    totalWinnings - contribution traversingPlayer
  else -(contribution traversingPlayer)

/-! ### The CFR+ recursion (`cfr_plus_recursive`)

The recursion is embedded with explicit fuel (the C++ recursion terminates
because histories strictly grow; fuel 0 is never reached by the runs the
theorems evaluate, and the structural theorems are proved for every fuel).
Besides the utility and the updated node table, the embedding returns a
trace with one entry per decision-node visit recording the acting player,
the number of legal actions, how many children were actually expanded by
recursive calls, how many loop iterations were skipped by `continue`, and
whether the regret/strategy/visit update block ran. -/

/-- Rational reads/writes on the reach-probability vector. -/
def gq (l : List ℚ) (i : Int) : ℚ := if 0 ≤ i then l.getD i.toNat 0 else 0

/-- Rational write at a player index. -/
def sq (l : List ℚ) (i : Int) (x : ℚ) : List ℚ :=
  if 0 ≤ i then l.set i.toNat x else l

/-- One trace entry per decision-node visit of `cfr_plus_recursive`. -/
structure TraceEntry where
  player : Int
  actions : Nat
  expanded : Nat
  skipped : Nat
  updated : Bool
  deriving DecidableEq, Repr

/-- Accumulator of the per-action loop of `cfr_plus_recursive`. -/
structure LoopState where
  utilities : List ℚ
  nodeUtility : ℚ
  map : NodeMap
  logs : List TraceEntry
  expanded : Nat
  skipped : Nat
  deriving Repr

/-- `-1e18`, the placeholder utility the loop assigns to skipped paths. -/
def NEG_HUGE : ℚ := -(10 ^ 18)

/-- `1e-9`, the reach-probability threshold of the update block. -/
def EPS_REACH : ℚ := 1 / 10 ^ 9

/-- The action translation at the top of the per-action loop of
`cfr_plus_recursive`: FOLD/CALL/CHECK directly, and any bet/raise/all-in
token as BET when nothing is to call, RAISE otherwise, with the chip
amount from `get_action_amount`.  (The loop consumes the deprecated
string-valued `get_possible_actions`, absent from `src/`; per §4.2 it is
the token form of `get_possible_action_specs`, whose specs are dispatched
here without the string detour.) -/
def actionOfSpec (s : GameState) (spec : ActionSpec) : Action :=
  let p := s.currentPlayer
  match spec.type with
  | .FOLD => { type := .FOLD, amount := 0, player := p }
  | .CALL => { type := .CALL, amount := 0, player := p }
  | .CHECK => { type := .CHECK, amount := 0, player := p }
  | _ =>
    let ty := if s.getAmountToCall p = 0 then ActTy.BET else ActTy.RAISE
    { type := ty, amount := ActionAbstraction.getActionAmount spec s, player := p }

/-- Number of community cards dealt on the street transition observed
after applying an action. -/
def cardsToDeal (entryStreet nextStreet : Street) : Nat :=
  if nextStreet = .FLOP ∧ entryStreet = .PREFLOP then 3
  else if nextStreet = .TURN ∧ entryStreet = .FLOP then 1
  else if nextStreet = .RIVER ∧ entryStreet = .TURN then 1
  else 0

/-- One iteration of the per-action loop of `cfr_plus_recursive`: the
action at index `i` either reaches the recursive call on the child state
(`expanded`), or is skipped by one of the three `continue` paths:
amount-computation failure, an exception from `apply_action`, or deck
exhaustion while dealing. -/
def cfrStep (child : GameState → List ℚ → Nat → NodeMap → ℚ × NodeMap × List TraceEntry)
    (s : GameState) (entryStreet : Street) (traversingPlayer : Int)
    (reach : List ℚ) (σ : List ℚ) (deck : List Card) (cardIdx : Nat)
    (spec : ActionSpec) (i : Nat) (acc : LoopState) : LoopState :=
  let p := s.currentPlayer
  let a := actionOfSpec s spec
  let isBetting := spec.type = .BET ∨ spec.type = .RAISE ∨ spec.type = .ALL_IN
  if isBetting ∧ a.amount = -1 then
    { acc with utilities := acc.utilities ++ [NEG_HUGE], skipped := acc.skipped + 1 }
  else
    match GameState.applyAction s a with
    | (_, some _) =>
      { acc with utilities := acc.utilities ++ [NEG_HUGE], skipped := acc.skipped + 1 }
    | (s1, none) =>
      let numDeal :=
        if s1.street ≠ entryStreet ∧ s1.street ≠ .SHOWDOWN then
          cardsToDeal entryStreet s1.street
        else 0
      if numDeal > 0 ∧ deck.length < cardIdx + numDeal then
        -- deck exhausted: zero utility for the path, index restored
        { acc with utilities := acc.utilities ++ [0], skipped := acc.skipped + 1 }
      else
        let s2 :=
          if numDeal > 0 then
            { s1 with communityCards :=
                s1.communityCards ++ ((deck.drop cardIdx).take numDeal) }
          else s1
        let childIdx := cardIdx + numDeal
        let nextReach :=
          if p ≠ traversingPlayer then sq reach p (gq reach p * σ.getD i 0)
          else reach
        let res := child s2 nextReach childIdx acc.map
        let u := -res.1
        { utilities := acc.utilities ++ [u],
          nodeUtility := acc.nodeUtility + σ.getD i 0 * u,
          map := res.2.1,
          logs := acc.logs ++ res.2.2,
          expanded := acc.expanded + 1,
          skipped := acc.skipped }

/-- The per-action loop of `cfr_plus_recursive`, taking the recursive call
on child states as the function argument `child`. -/
def cfrLoop (child : GameState → List ℚ → Nat → NodeMap → ℚ × NodeMap × List TraceEntry)
    (s : GameState) (entryStreet : Street) (traversingPlayer : Int)
    (reach : List ℚ) (σ : List ℚ) (deck : List Card) (cardIdx : Nat) :
    List ActionSpec → Nat → LoopState → LoopState
  | [], _, acc => acc
  | spec :: rest, i, acc =>
    cfrLoop child s entryStreet traversingPlayer reach σ deck cardIdx rest (i + 1)
      (cfrStep child s entryStreet traversingPlayer reach σ deck cardIdx spec i acc)

/-- The regret-sum update of the CFR+ update block. -/
def updateRegrets (regrets : List ℚ) (numActions : Nat) (cfrReach : ℚ)
    (utilities : List ℚ) (nodeUtility : ℚ) : List ℚ :=
  (List.range numActions).foldl
    (fun rs i => rs.set i (rs.getD i 0 + cfrReach * (utilities.getD i 0 - nodeUtility)))
    regrets

/-- The strategy-sum update of the CFR+ update block. -/
def updateStrategySum (strat : List ℚ) (numActions : Nat) (playerReach : ℚ)
    (σ : List ℚ) : List ℚ :=
  (List.range numActions).foldl
    (fun ss i => ss.set i (ss.getD i 0 + playerReach * σ.getD i 0))
    strat

/-- The node-creation step of `cfr_plus_recursive`: insert a fresh node
for the key unless one already exists. -/
def nodeLookupMap (m : NodeMap) (key : String) (numActions : Nat) : NodeMap :=
  match mapFind m key with
  | some _ => m
  | none => mapSet m key (mkNode numActions)

/-- The regret-matched strategy of the node stored at `key`. -/
def nodeSigma (m1 : NodeMap) (key : String) (numActions : Nat) : List ℚ :=
  getStrategyFromRegrets ((mapFind m1 key).getD (mkNode numActions)).regret_sum

/-- The body of one `cfr_plus_recursive` call, with the recursive call on
child states abstracted as `child`: terminal payoff, missing-hand and
empty-action guards, node lookup/creation, regret matching, the full
per-action loop, and the traverser-only update block. -/
def cfrNode (rank : List Card → List Card → Int)
    (child : GameState → List ℚ → Nat → NodeMap → ℚ × NodeMap × List TraceEntry)
    (s : GameState) (traversingPlayer : Int) (reach : List ℚ)
    (deck : List Card) (cardIdx : Nat) (m : NodeMap) :
    ℚ × NodeMap × List TraceEntry :=
    let entryStreet := s.street
    if s.isTerminal then (terminalPayoff rank s traversingPlayer, m, [])
    else
      let p := s.currentPlayer
      if getPlayerHand s p = [] then (0, m, [])
      else
        let key := infoSetKey s
        let actions := ActionAbstraction.getPossibleActionSpecs s
        let numActions := actions.length
        if numActions = 0 then (0, m, [])
        else
          let m1 := nodeLookupMap m key numActions
          let σ := nodeSigma m1 key numActions
          let final :=
            cfrLoop child s entryStreet traversingPlayer reach σ deck cardIdx actions 0
              ⟨[], 0, m1, [], 0, 0⟩
          let doUpdate := p = traversingPlayer
          let m2 :=
            if doUpdate then
              let cfrReach := (List.range s.numPlayers).foldl
                (fun acc q => if Int.ofNat q ≠ p then acc * gq reach (Int.ofNat q) else acc) 1
              let nd := (mapFind final.map key).getD (mkNode numActions)
              let nd :=
                if cfrReach > EPS_REACH then
                  { nd with regret_sum :=
                      (updateRegrets nd.regret_sum numActions cfrReach final.utilities
                        final.nodeUtility) }
                else nd
              let nd :=
                if gq reach p > EPS_REACH then
                  { nd with strategy_sum :=
                      updateStrategySum nd.strategy_sum numActions (gq reach p) σ }
                else nd
              mapSet final.map key { nd with visit_count := nd.visit_count + 1 }
            else final.map
          let entry : TraceEntry :=
            { player := p, actions := numActions, expanded := final.expanded,
              skipped := final.skipped, updated := decide doUpdate }
          (final.nodeUtility, m2, entry :: final.logs)

/-- `CFREngine::cfr_plus_recursive`, with fuel.  The C++ recursion
terminates because histories strictly grow; fuel 0 is a modelling device
(returning utility 0 and no trace) that the evaluated runs never reach,
and the structural theorems below hold for every fuel.  Returns the
utility for the traversing player, the node table after the visit, and
the trace of decision-node visits (root entry first). -/
def cfrPlusRecursive (rank : List Card → List Card → Int) :
    Nat → GameState → Int → List ℚ → List Card → Nat → NodeMap →
    ℚ × NodeMap × List TraceEntry
  | 0, _, _, _, _, _, m => (0, m, [])
  | fuel + 1, s, traversingPlayer, reach, deck, cardIdx, m =>
    cfrNode rank
      (fun st r ci mp => cfrPlusRecursive rank fuel st traversingPlayer r deck ci mp)
      s traversingPlayer reach deck cardIdx m

/-! ### Checkpoint save/load (`cfr_engine.cpp`)

The checkpoint is a JSON document; nlohmann serializes each `Node` as its
`regret_sum` and `strategy_sum` arrays and `visit_count`, and the node map
as a key-ordered JSON object.  The document is modelled structurally; the
double↔decimal round trip of nlohmann's writer/parser is exact (shortest
round-trip formatting), so values are carried unchanged. -/

/-- `CHECKPOINT_VERSION_JSON` from `cfr_engine.cpp`. -/
def CHECKPOINT_VERSION_JSON : String := "1.0-json"

/-- The engine state that `save_checkpoint`/`load_checkpoint` touch. -/
structure CFREngine where
  nodeMap : NodeMap
  completedIterations : Int
  totalNodesCreated : Int
  deriving DecidableEq, Repr

/-- The JSON checkpoint document: version, counters, and the node map as
the ordered sequence of (key, node) pairs of the JSON object. -/
structure Checkpoint where
  version : String
  completedIterations : Int
  totalNodesCreated : Int
  nodeMap : List (String × Node)
  deriving DecidableEq, Repr

/-- `CFREngine::save_checkpoint`: serialize the three counters and the node
map (iterated in key order, which is the engine map's own order). -/
def saveCheckpoint (e : CFREngine) : Checkpoint :=
  { version := CHECKPOINT_VERSION_JSON,
    completedIterations := e.completedIterations,
    totalNodesCreated := e.totalNodesCreated,
    nodeMap := e.nodeMap }

/-- `from_json` for `Node`: sizes are taken from the serialized arrays
(the placeholder-sized node is overwritten wholesale by `get_to`), and a
regret/strategy length mismatch throws. -/
def nodeFromJson (nj : Node) : Option Node :=
  if nj.regret_sum.length ≠ nj.strategy_sum.length then none
  else some ⟨nj.regret_sum, nj.strategy_sum, nj.visit_count⟩

/-- The node-map deserialization loop of `load_checkpoint`: `try_emplace`
each deserialized node; on a per-node failure loading stops with the map
as filled so far. -/
def loadEntries : List (String × Node) → NodeMap → NodeMap × Bool
  | [], m => (m, true)
  | (k, nj) :: rest, m =>
    match nodeFromJson nj with
    | some nd => loadEntries rest (mapEmplace m k nd)
    | none => (m, false)

/-- `CFREngine::load_checkpoint`: version and counter validation, map
rebuild, node-count fix-up, and the counter stores.  Returns the loaded
iteration count (−1 on failure) and the engine state after the call. -/
def loadCheckpoint (e : CFREngine) (ck : Checkpoint) : Int × CFREngine :=
  if ck.version ≠ CHECKPOINT_VERSION_JSON then (-1, e)
  else if ck.completedIterations < 0 then (-1, e)
  else
    let cleared := { e with nodeMap := [] }
    match loadEntries ck.nodeMap [] with
    | (m, false) => (-1, { cleared with nodeMap := m })
    | (m, true) =>
      let loadedNodes : Int :=
        if ck.totalNodesCreated = 0 ∨ ck.totalNodesCreated ≠ (m.length : Int) then
          (m.length : Int)
        else ck.totalNodesCreated
      (ck.completedIterations,
        { nodeMap := m,
          completedIterations := ck.completedIterations,
          totalNodesCreated := loadedNodes })

/-! ## Side-pot lemmas for the terminal payoff -/

/-- Unfolding of the pair comparison. -/
theorem payoffPairLt_iff (a b : ℚ × Nat) :
    payoffPairLt a b = true ↔ (a.1 < b.1 ∨ (a.1 = b.1 ∧ a.2 < b.2)) := by
  simp [payoffPairLt]

/-- The pair comparison is irreflexive-asymmetric. -/
theorem payoffPairLt_asymm (a b : ℚ × Nat) (h : payoffPairLt a b = true) :
    payoffPairLt b a = false := by
  rw [payoffPairLt_iff] at h
  rw [Bool.eq_false_iff, Ne, payoffPairLt_iff]
  rcases h with h | ⟨h1, h2⟩
  · rintro (hc | ⟨hc1, _⟩)
    · exact absurd (lt_trans h hc) (lt_irrefl _)
    · rw [hc1] at h; exact absurd h (lt_irrefl _)
  · rintro (hc | ⟨_, hc2⟩)
    · rw [h1] at hc; exact absurd hc (lt_irrefl _)
    · exact absurd (Nat.lt_trans h2 hc2) (Nat.lt_irrefl _)

/-- Membership through a sorted pair insertion. -/
theorem mem_insertPair (z x : ℚ × Nat) :
    ∀ l : List (ℚ × Nat), z ∈ insertPair x l ↔ z = x ∨ z ∈ l := by
  intro l
  induction l with
  | nil => simp [insertPair]
  | cons y ys ih =>
    by_cases h : payoffPairLt x y = true
    · simp [insertPair, h]
    · rw [Bool.not_eq_true] at h
      simp only [insertPair, h, Bool.false_eq_true, if_false, List.mem_cons, ih]
      tauto

/-- Membership through the pair sort. -/
theorem mem_sortPairsByContribution (z : ℚ × Nat) :
    ∀ (l acc : List (ℚ × Nat)),
      z ∈ l.foldl (fun acc x => insertPair x acc) acc ↔ z ∈ acc ∨ z ∈ l := by
  intro l
  induction l with
  | nil => intro acc; simp
  | cons x xs ih =>
    intro acc
    rw [List.foldl_cons, ih, mem_insertPair]
    simp only [List.mem_cons]
    tauto

/-- The non-strict order the insertion sort establishes. -/
def pairNGt (a b : ℚ × Nat) : Prop := payoffPairLt b a = false

/-- Sorted pair insertion preserves sortedness. -/
theorem insertPair_pairwise (x : ℚ × Nat) :
    ∀ l : List (ℚ × Nat), l.Pairwise pairNGt → (insertPair x l).Pairwise pairNGt := by
  intro l
  induction l with
  | nil => intro _; simp [insertPair, List.pairwise_cons]
  | cons y ys ih =>
    intro h
    rcases List.pairwise_cons.mp h with ⟨hy, hys⟩
    by_cases hlt : payoffPairLt x y = true
    · simp only [insertPair, hlt, if_true]
      rw [List.pairwise_cons]
      constructor
      · intro z hz
        rcases List.mem_cons.mp hz with rfl | hz2
        · exact payoffPairLt_asymm _ _ hlt
        · -- z is after y; from ¬(z < y) and x < y conclude ¬(z < x)
          have hyz := hy z hz2
          rw [pairNGt, Bool.eq_false_iff, Ne, payoffPairLt_iff]
          rw [pairNGt, Bool.eq_false_iff, Ne, payoffPairLt_iff] at hyz
          rw [payoffPairLt_iff] at hlt
          rintro (hc | ⟨hc1, hc2⟩) <;> apply hyz
          · rcases hlt with h1 | ⟨h1, _⟩
            · exact Or.inl (lt_trans hc h1)
            · exact Or.inl (by rw [← h1]; exact hc)
          · rcases hlt with h1 | ⟨h1, h2⟩
            · exact Or.inl (by rw [hc1]; exact h1)
            · exact Or.inr ⟨by rw [hc1, h1], Nat.lt_trans hc2 h2⟩
      · exact h
    · rw [Bool.not_eq_true] at hlt
      simp only [insertPair, hlt, Bool.false_eq_true, if_false]
      rw [List.pairwise_cons]
      constructor
      · intro z hz
        rcases (mem_insertPair z x ys).mp hz with rfl | hz2
        · exact hlt
        · exact hy z hz2
      · exact ih hys

/-- The pair sort produces a list sorted by the pair order. -/
theorem sortPairs_pairwise :
    ∀ (l acc : List (ℚ × Nat)), acc.Pairwise pairNGt →
      (l.foldl (fun acc x => insertPair x acc) acc).Pairwise pairNGt := by
  intro l
  induction l with
  | nil => intro acc h; exact h
  | cons x xs ih =>
    intro acc h
    rw [List.foldl_cons]
    exact ih _ (insertPair_pairwise x acc h)

/-- Sortedness in the pair order gives ascending contribution levels. -/
theorem sortPairs_fst_mono (l : List (ℚ × Nat)) :
    (sortPairsByContribution l).Pairwise (fun a b => a.1 ≤ b.1) := by
  have h := sortPairs_pairwise l [] (by simp)
  refine h.imp ?_
  intro a b hab
  rw [pairNGt, Bool.eq_false_iff, Ne, payoffPairLt_iff] at hab
  by_contra hc
  exact hab (Or.inl (lt_of_not_le hc))

/-- The pot loop pays nothing to a player who is not eligible. -/
theorem potLoop_zero (rank : List Card → List Card → Int) (s : GameState) (t : Int) :
    ∀ (L : List (ℚ × Nat)) (lastLevel : ℚ) (elig : List Nat) (winnings : ℚ),
      (∀ w ∈ elig, ¬ (Int.ofNat w = t)) →
      potLoop rank s t L lastLevel elig winnings = winnings := by
  intro L
  induction L with
  | nil => intro _ _ _ _; rfl
  | cons p rest ih =>
    rcases p with ⟨c, idx⟩
    intro lastLevel elig winnings helig
    have hnext : ∀ w ∈ elig.filter (fun e => e ≠ idx), ¬ (Int.ofNat w = t) := by
      intro w hw
      exact helig w (List.mem_of_mem_filter hw)
    have hcount : ∀ winners : List Nat, (∀ w ∈ winners, w ∈ elig) →
        winners.countP (fun w => Int.ofNat w = t) = 0 := by
      intro winners hsub
      refine List.countP_eq_zero.mpr ?_
      intro w hw
      simpa using helig w (hsub w hw)
    rw [potLoop]
    by_cases hpay : c > lastLevel ∧ elig ≠ [] ∧
        (if s.communityCards.length = 5 then winnersByRank rank s elig else elig) ≠ []
    · rw [if_pos hpay]
      rw [hcount _ (by
        intro w hmem
        by_cases hb : s.communityCards.length = 5
        · rw [if_pos hb] at hmem
          exact List.mem_of_mem_filter hmem
        · rw [if_neg hb] at hmem
          exact hmem)]
      rw [Nat.cast_zero, zero_mul, add_zero]
      exact ih _ _ _ hnext
    · rw [if_neg hpay]
      exact ih _ _ _ hnext

/-- The telescoping identity of the incomplete-board pot loop: with every
pot split equally among all eligible players, a player eligible until
their own contribution level collects exactly the difference between
their level and the entry level. -/
theorem potLoop_telescope (rank : List Card → List Card → Int) (s : GameState)
    (tn : Nat) (ct : ℚ) (hb : ¬ s.communityCards.length = 5) :
    ∀ (L : List (ℚ × Nat)) (lastLevel : ℚ) (elig : List Nat) (winnings : ℚ),
      L.Pairwise (fun a b => a.1 ≤ b.1) →
      (∀ x ∈ L, lastLevel ≤ x.1) →
      tn ∈ elig → elig.Nodup →
      (ct, tn) ∈ L →
      (∀ x ∈ L, x.2 = tn → x = (ct, tn)) →
      potLoop rank s (Int.ofNat tn) L lastLevel elig winnings =
        winnings + (ct - lastLevel) := by
  intro L
  induction L with
  | nil => intro _ _ _ _ _ _ _ hmem _; simp at hmem
  | cons p rest ih =>
    rcases p with ⟨c, idx⟩
    intro lastLevel elig winnings hsort hbound hticell hnodup hmem huniq
    have hellen : elig ≠ [] := fun hc => by rw [hc] at hticell; simp at hticell
    have hlen0 : (elig.length : ℚ) ≠ 0 := by
      simp only [ne_eq, Nat.cast_eq_zero, List.length_eq_zero]
      exact hellen
    have hcountP : (elig.countP (fun w => Int.ofNat w = Int.ofNat tn)) = 1 := by
      have hfn : (fun w : Nat => decide (Int.ofNat w = Int.ofNat tn)) = (fun w => w == tn) := by
        funext w
        by_cases h : w = tn
        · simp [h]
        · simp [h, Int.ofNat_inj]
      show elig.countP (fun w => decide (Int.ofNat w = Int.ofNat tn)) = 1
      rw [hfn]
      have := List.count_eq_one_of_mem hnodup hticell
      simpa [List.count] using this
    have hle : lastLevel ≤ c := hbound _ (List.mem_cons_self _ _)
    rw [potLoop]
    simp only [if_neg hb]
    by_cases hidx : idx = tn
    · -- the head is the traverser's own level
      subst hidx
      have hpair : (c, idx) = (ct, idx) := huniq _ (List.mem_cons_self _ _) rfl
      have hceq : c = ct := congrArg Prod.fst hpair
      subst hceq
      have hafter : ∀ w ∈ elig.filter (fun e => e ≠ idx), ¬ (Int.ofNat w = Int.ofNat idx) := by
        intro w hw
        have hne := List.of_mem_filter hw
        simp only [ne_eq, decide_eq_true_eq] at hne
        simpa [Int.ofNat_inj] using hne
      by_cases hgt : c > lastLevel
      · rw [if_pos (⟨hgt, hellen⟩ : _ ∧ _), if_pos (⟨hgt, hellen, hellen⟩ : _ ∧ _ ∧ _)]
        rw [potLoop_zero rank s _ rest _ _ _ hafter]
        rw [hcountP]
        field_simp
        try ring
      · have hceq2 : c = lastLevel := le_antisymm (not_lt.mp hgt) hle
        rw [if_neg (by rintro ⟨h1, _⟩; exact hgt h1),
            if_neg (by rintro ⟨h1, _⟩; exact hgt h1)]
        rw [potLoop_zero rank s _ rest _ _ _ hafter]
        rw [hceq2]
        ring
    · -- the head retires another player
      have hmem2 : (ct, tn) ∈ rest := by
        rcases List.mem_cons.mp hmem with hish | h2
        · exact absurd (congrArg Prod.snd hish).symm hidx
        · exact h2
      have hticell2 : tn ∈ elig.filter (fun e => e ≠ idx) :=
        List.mem_filter.mpr ⟨hticell, decide_eq_true (fun hc => hidx hc.symm)⟩
      have hnodup2 : (elig.filter (fun e => e ≠ idx)).Nodup := List.Nodup.filter _ hnodup
      have hsort2 : rest.Pairwise (fun a b => a.1 ≤ b.1) := (List.pairwise_cons.mp hsort).2
      have huniq2 : ∀ x ∈ rest, x.2 = tn → x = (ct, tn) := fun x hx h2 =>
        huniq x (List.mem_cons_of_mem _ hx) h2
      have hheadle : ∀ x ∈ rest, c ≤ x.1 := (List.pairwise_cons.mp hsort).1
      by_cases hgt : c > lastLevel
      · rw [if_pos (⟨hgt, hellen⟩ : _ ∧ _), if_pos (⟨hgt, hellen, hellen⟩ : _ ∧ _ ∧ _)]
        rw [ih c _ _ hsort2 hheadle hticell2 hnodup2 hmem2 huniq2]
        rw [hcountP]
        field_simp
        try ring
      · have hceq2 : c = lastLevel := le_antisymm (not_lt.mp hgt) hle
        rw [if_neg (by rintro ⟨h1, _⟩; exact hgt h1),
            if_neg (by rintro ⟨h1, _⟩; exact hgt h1)]
        rw [ih lastLevel _ _ hsort2 (by rw [← hceq2]; exact hheadle) hticell2 hnodup2 hmem2 huniq2]

/-- Entry reads of the contribution vector are nonnegative when every
stored contribution is. -/
theorem getPlayerContribution_nonneg (s : GameState)
    (hpos : ∀ c ∈ s.contributions, 0 ≤ c) (i : Int) :
    0 ≤ s.getPlayerContribution i := by
  rw [GameState.getPlayerContribution]
  split
  · exact le_refl 0
  · rw [giI]
    split
    · rw [gi]
      by_cases hlt : i.toNat < s.contributions.length
      · rw [List.getD_eq_getElem s.contributions 0 hlt]
        exact hpos _ (List.getElem_mem hlt)
      · rw [List.getD_eq_default s.contributions 0 (le_of_not_lt hlt)]
    · exact le_refl 0

/-! ## Order lemmas for string keys -/

/-- Byte order on characters is asymmetric. -/
theorem charLtB_asymm (a b : Char) (h : charLtB a b = true) : charLtB b a = false := by
  simp only [charLtB, decide_eq_true_eq, decide_eq_false_iff_not] at *
  omega

/-- Lexicographic string order is asymmetric. -/
theorem charListLt_asymm : ∀ a b : List Char,
    charListLt a b = true → charListLt b a = false := by
  intro a
  induction a with
  | nil =>
    intro b h
    cases b with
    | nil => exact absurd h (by simp [charListLt])
    | cons y ys => rfl
  | cons x xs ih =>
    intro b h
    cases b with
    | nil => exact absurd h (by simp [charListLt])
    | cons y ys =>
      by_cases hxy : charLtB x y = true
      · have hyx := charLtB_asymm x y hxy
        simp [charListLt, hyx, hxy]
      · rw [Bool.not_eq_true] at hxy
        by_cases hyx : charLtB y x = true
        · exact absurd h (by simp [charListLt, hxy, hyx])
        · rw [Bool.not_eq_true] at hyx
          have h' : charListLt xs ys = true := by
            simpa [charListLt, hxy, hyx] using h
          have := ih ys h'
          simp [charListLt, hxy, hyx, this]

/-- `operator<` on strings is asymmetric. -/
theorem strLtB_asymm (a b : String) (h : strLtB a b = true) : strLtB b a = false :=
  charListLt_asymm a.data b.data h

/-- `try_emplace` of a key strictly above every existing key appends. -/
theorem mapEmplace_append (k : String) (v : Node) :
    ∀ m : NodeMap, (∀ kv ∈ m, strLtB kv.1 k = true) →
      mapEmplace m k v = m ++ [(k, v)] := by
  intro m
  induction m with
  | nil => intro _; rfl
  | cons kv0 rest ih =>
    intro h
    have h0 : strLtB kv0.1 k = true := h kv0 (List.mem_cons_self _ _)
    have h0r := strLtB_asymm _ _ h0
    rcases kv0 with ⟨k0, v0⟩
    simp only [mapEmplace, h0r, Bool.false_eq_true, if_false, h0, if_true]
    rw [ih (fun kv hkv => h kv (List.mem_cons_of_mem _ hkv))]
    rfl

/-- Deserializing a key-sorted, well-sized node list into a map whose keys
all precede it reproduces the list. -/
theorem loadEntries_append :
    ∀ (l : List (String × Node)) (m : NodeMap),
      l.Pairwise (fun p q => strLtB p.1 q.1 = true) →
      (∀ kv ∈ l, kv.2.regret_sum.length = kv.2.strategy_sum.length) →
      (∀ kv ∈ m, ∀ kv2 ∈ l, strLtB kv.1 kv2.1 = true) →
      loadEntries l m = (m ++ l, true) := by
  intro l
  induction l with
  | nil => intro m _ _ _; simp [loadEntries]
  | cons kv rest ih =>
    intro m hpw hsz hlt
    rcases kv with ⟨k, nj⟩
    have hlen : nj.regret_sum.length = nj.strategy_sum.length :=
      hsz (k, nj) (List.mem_cons_self _ _)
    have hjson : nodeFromJson nj = some nj := by
      rw [nodeFromJson, if_neg (not_not_intro hlen)]
    rw [loadEntries, hjson]
    show loadEntries rest (mapEmplace m k nj) = (m ++ (k, nj) :: rest, true)
    rw [mapEmplace_append k nj m
      (fun kv2 hkv2 => hlt kv2 hkv2 (k, nj) (List.mem_cons_self _ _))]
    rw [ih (m ++ [(k, nj)]) (List.Pairwise.of_cons hpw)
      (fun kv2 hkv2 => hsz kv2 (List.mem_cons_of_mem _ hkv2))]
    · simp
    · intro kv2 hkv2 kv3 hkv3
      rcases List.mem_append.mp hkv2 with hm | hone
      · exact hlt kv2 hm kv3 (List.mem_cons_of_mem _ hkv3)
      · have : kv2 = (k, nj) := by simpa using hone
        subst this
        exact (List.pairwise_cons.mp hpw).1 kv3 hkv3

/-! ## C4 -/

/-- C4: for every engine state whose node map respects the `std::map`
ordering invariant (strictly increasing keys) and the `Node` structural
invariant (regret and strategy arrays of equal length), and whose
completed-iteration counter is the nonnegative value the training loop
maintains, `save_checkpoint` followed by `load_checkpoint` into any engine
restores the node table contents exactly — for each key the same
`regret_sum` and `strategy_sum` values and the same visit count (a `Node`
stores nothing else; in particular it stores no per-action specs, so that
clause of the claim holds vacuously) — and sets `completed_iterations` to
the saved value, returning it. -/
theorem C4_checkpoint_round_trip (e eFresh : CFREngine)
    (hsort : e.nodeMap.Pairwise (fun p q => strLtB p.1 q.1 = true))
    (hsz : ∀ kv ∈ e.nodeMap, kv.2.regret_sum.length = kv.2.strategy_sum.length)
    (hc : 0 ≤ e.completedIterations) :
    (loadCheckpoint eFresh (saveCheckpoint e)).1 = e.completedIterations ∧
    (loadCheckpoint eFresh (saveCheckpoint e)).2.nodeMap = e.nodeMap ∧
    (loadCheckpoint eFresh (saveCheckpoint e)).2.completedIterations =
      e.completedIterations := by
  have hload := loadEntries_append e.nodeMap [] hsort hsz (by intro kv h; simp at h)
  rw [loadCheckpoint, saveCheckpoint]
  simp only [if_neg (not_not_intro rfl)]
  rw [if_neg (by omega)]
  rw [hload]
  simp

/-- Witness for C4: the round trip evaluated on a concrete two-node
engine. -/
theorem C4_witness :
    (loadCheckpoint ⟨[], 0, 0⟩ (saveCheckpoint ⟨[("a", ⟨[1], [2], 3⟩), ("b", ⟨[], [], 0⟩)], 7, 2⟩)).1 = 7 ∧
    (loadCheckpoint ⟨[], 0, 0⟩ (saveCheckpoint ⟨[("a", ⟨[1], [2], 3⟩), ("b", ⟨[], [], 0⟩)], 7, 2⟩)).2.nodeMap =
      [("a", ⟨[1], [2], 3⟩), ("b", ⟨[], [], 0⟩)] ∧
    (loadCheckpoint ⟨[], 0, 0⟩ (saveCheckpoint ⟨[("a", ⟨[1], [2], 3⟩), ("b", ⟨[], [], 0⟩)], 7, 2⟩)).2.completedIterations = 7 :=
  C4_checkpoint_round_trip ⟨[("a", ⟨[1], [2], 3⟩), ("b", ⟨[], [], 0⟩)], 7, 2⟩ ⟨[], 0, 0⟩
    (by decide) (by decide) (by decide)

/-! ## The seat walk of `advance_to_next_street` -/

/-- The seats the constructor/advance skip-loop visits in order: `cur`,
then successive seats modulo the player count, stopping (exclusive) when
the walk would return to `start`. -/
def visitList (s : GameState) (start : Nat) : Nat → Nat → List Nat
  | _, 0 => []
  | cur, fuel + 1 =>
    cur :: (if (cur + 1) % s.numPlayers = start then []
            else visitList s start ((cur + 1) % s.numPlayers) fuel)

/-- The skip-loop is the first eligible seat of its visit sequence. -/
theorem searchActor_eq_find (s : GameState) (start : Nat) :
    ∀ (fuel cur : Nat),
      GameState.searchActor s start cur fuel =
        (visitList s start cur fuel).find?
          (fun j => ¬ (gb s.allIn j ∨ gb s.folded j)) := by
  intro fuel
  induction fuel with
  | zero => intro cur; rfl
  | succ fuel ih =>
    intro cur
    rw [GameState.searchActor, visitList]
    by_cases helig : ¬ (gb s.allIn cur ∨ gb s.folded cur)
    · rw [if_pos helig, List.find?_cons_of_pos _ (by simpa using helig)]
    · rw [if_neg helig, List.find?_cons_of_neg _ (by simpa using helig)]
      by_cases hwrap : (cur + 1) % s.numPlayers = start
      · rw [if_pos hwrap, if_pos hwrap]
        rfl
      · rw [if_neg hwrap, if_neg hwrap, ih]

/-- Adding a nonzero offset below the modulus moves a reduced residue. -/
theorem add_mod_ne_self (n start x : Nat) (hs : start < n) (hx0 : 0 < x)
    (hxn : x < n) : (start + x) % n ≠ start := by
  intro h
  rcases Nat.lt_or_ge (start + x) n with hlt | hge
  · rw [Nat.mod_eq_of_lt hlt] at h
    omega
  · rw [Nat.mod_eq_sub_mod hge] at h
    have h2 : start + x - n < n := by omega
    rw [Nat.mod_eq_of_lt h2] at h
    omega

/-- With enough fuel, the visit sequence from offset `j` is exactly the
remaining `m = numPlayers - j` seats in cyclic order. -/
theorem visitList_spec (s : GameState) (start : Nat) (hs : start < s.numPlayers) :
    ∀ (m : Nat), 1 ≤ m → ∀ (j f : Nat), m ≤ f → j + m = s.numPlayers →
      visitList s start ((start + j) % s.numPlayers) f =
        (List.range m).map (fun k => (start + j + k) % s.numPlayers) := by
  intro m
  induction m with
  | zero => intro h; omega
  | succ m ihm =>
    intro _ j f hf hjm
    rcases f with _ | f
    · omega
    rw [visitList]
    rcases Nat.eq_zero_or_pos m with rfl | hm
    · -- last seat: the walk wraps back to the start
      have hwrap : ((start + j) % s.numPlayers + 1) % s.numPlayers = start := by
        rw [Nat.mod_add_mod]
        have : start + j + 1 = start + s.numPlayers := by omega
        rw [this, Nat.add_mod_right, Nat.mod_eq_of_lt hs]
      rw [if_pos hwrap]
      show [(start + j) % s.numPlayers] = [(start + j + 0) % s.numPlayers]
      rw [Nat.add_zero]
    · -- interior seat: the walk continues
      have hnowrap : ((start + j) % s.numPlayers + 1) % s.numPlayers ≠ start := by
        rw [Nat.mod_add_mod]
        have : start + j + 1 = start + (j + 1) := by omega
        rw [this]
        exact add_mod_ne_self _ _ _ hs (by omega) (by omega)
      rw [if_neg hnowrap]
      have hrw : ((start + j) % s.numPlayers + 1) % s.numPlayers =
          (start + (j + 1)) % s.numPlayers := by
        rw [Nat.mod_add_mod]
        congr 1
        try omega
      rw [hrw, ihm hm (j + 1) f (by omega) (by omega)]
      rw [List.range_succ_eq_map]
      simp only [List.map_cons, List.map_map]
      have h1 : start + j + 0 = start + j := by omega
      have h2 : (fun k => (start + (j + 1) + k) % s.numPlayers) =
          ((fun k => (start + j + k) % s.numPlayers) ∘ Nat.succ) := by
        funext k
        have h3 : start + (j + 1) + k = start + j + (k + 1) := by omega
        simp only [Function.comp, Nat.succ_eq_add_one, h3]
      rw [h1, h2]

/-- The first unfolded, non-all-in player in cyclic seat order starting at
`start` — the specification's description of the postflop first actor. -/
def firstEligible (s : GameState) (start : Nat) : Option Nat :=
  ((List.range s.numPlayers).map (fun k => (start + k) % s.numPlayers)).find?
    (fun j => ¬ (gb s.allIn j ∨ gb s.folded j))

/-- The skip-loop, run as `advance_to_next_street` runs it, computes the
first eligible seat from `start`. -/
theorem searchActor_eq_firstEligible (s : GameState) (hn : 0 < s.numPlayers)
    (start : Nat) (hs : start < s.numPlayers) :
    GameState.searchActor s start start (s.numPlayers + 1) = firstEligible s start := by
  rw [searchActor_eq_find, firstEligible]
  congr 1
  have h := visitList_spec s start hs s.numPlayers hn 0 (s.numPlayers + 1)
    (by omega) (by omega)
  have h0 : (start + 0) % s.numPlayers = start := by
    rw [Nat.add_zero, Nat.mod_eq_of_lt hs]
  rw [h0] at h
  rw [h]
  simp

/-! ## The chip-conservation invariant -/

/-- Sum of an integer list after a positional write. -/
theorem sum_set_int : ∀ (l : List Int) (n : Nat), n < l.length → ∀ a : Int,
    (l.set n a).sum = l.sum - l.getD n 0 + a := by
  intro l
  induction l with
  | nil => intro n h; simp at h
  | cons x xs ih =>
    intro n h a
    cases n with
    | zero => simp only [List.set, List.sum_cons, List.getD_cons_zero]; ring
    | succ m =>
      simp only [List.set, List.sum_cons, List.getD_cons_succ]
      rw [ih m (by simpa using h) a]
      ring

/-- A guarded write preserves the length. -/
theorem siI_length (l : List Int) (i : Int) (x : Int) :
    (siI l i x).length = l.length := by
  rw [siI]
  split
  · rw [si, List.length_set]
  · rfl

/-- The chip-moving update adds the same delta to the vector sum. -/
theorem sum_chip_update (l : List Int) (p : Int) (amt : Int) (h0 : 0 ≤ p)
    (hlt : p.toNat < l.length) :
    (siI l p (giI l p + amt)).sum = l.sum + amt := by
  rw [siI, if_pos h0, si, sum_set_int l p.toNat hlt, giI, if_pos h0, gi]
  ring

/-- The pot-balance invariant: the pot always equals the sum of all
contributions (including the current street's unswept bets). -/
def PotInv (s : GameState) : Prop :=
  s.contributions.length = s.numPlayers ∧ s.contributions.sum = s.pot

/-- The turn invariant: while the hand is live, the acting player index is
a valid seat. -/
def CurInv (s : GameState) : Prop :=
  s.gameOver = false → 0 ≤ s.currentPlayer ∧ s.currentPlayer < (s.numPlayers : Int)

/-- The switch of `apply_action` either leaves the chip fields alone or
moves one delta into the acting player's contribution and the pot at the
same time; it never touches the player count, the game-over flag, or the
acting player. -/
theorem applySwitch_fields (s : GameState) (a : Action) (s2 : GameState)
    (err : Option String) (hsw : GameState.applySwitch s a = (s2, err)) :
    ((s2.contributions = s.contributions ∧ s2.pot = s.pot) ∨
      (∃ amt, s2.contributions =
          siI s.contributions a.player (giI s.contributions a.player + amt) ∧
        s2.pot = s.pot + amt)) ∧
    s2.numPlayers = s.numPlayers ∧ s2.gameOver = s.gameOver ∧
    s2.currentPlayer = s.currentPlayer := by
  cases hty : a.type <;> simp only [GameState.applySwitch, hty] at hsw <;>
    repeat' split at hsw
  all_goals
    injection hsw with h1 h2
  all_goals
    subst h1
  all_goals
    first
      | exact ⟨Or.inl ⟨rfl, rfl⟩, rfl, rfl, rfl⟩
      | exact ⟨Or.inr ⟨_, rfl, rfl⟩, rfl, rfl, rfl⟩

/-- `update_next_player` moves no chips. -/
theorem updateNextPlayer_fields (s : GameState) :
    (GameState.updateNextPlayer s).contributions = s.contributions ∧
    (GameState.updateNextPlayer s).pot = s.pot ∧
    (GameState.updateNextPlayer s).numPlayers = s.numPlayers := by
  rw [GameState.updateNextPlayer]
  repeat' split
  all_goals first
    | exact ⟨rfl, rfl, rfl⟩
    | (dsimp only; split <;> exact ⟨rfl, rfl, rfl⟩)

/-- `advance_to_next_street` moves no chips. -/
theorem advanceToNextStreet_fields (s : GameState) :
    (GameState.advanceToNextStreet s).contributions = s.contributions ∧
    (GameState.advanceToNextStreet s).pot = s.pot ∧
    (GameState.advanceToNextStreet s).numPlayers = s.numPlayers := by
  rw [GameState.advanceToNextStreet]
  repeat' split
  all_goals exact ⟨rfl, rfl, rfl⟩

/-- The post-switch processing moves no chips. -/
theorem postProcess_fields (s : GameState) :
    (GameState.postProcess s).contributions = s.contributions ∧
    (GameState.postProcess s).pot = s.pot ∧
    (GameState.postProcess s).numPlayers = s.numPlayers := by
  rw [GameState.postProcess]
  split
  · dsimp only
    split <;> exact ⟨rfl, rfl, rfl⟩
  · dsimp only
    split
    · obtain ⟨h1, h2, h3⟩ := advanceToNextStreet_fields (GameState.updateNextPlayer s)
      obtain ⟨h4, h5, h6⟩ := updateNextPlayer_fields s
      exact ⟨h1.trans h4, h2.trans h5, h3.trans h6⟩
    · exact updateNextPlayer_fields s

/-- The skip-loop returns a valid seat when started at one. -/
theorem searchActor_lt (s : GameState) (start : Nat) :
    ∀ (fuel cur c : Nat), cur < s.numPlayers →
      GameState.searchActor s start cur fuel = some c → c < s.numPlayers := by
  intro fuel
  induction fuel with
  | zero => intro cur c _ h; exact Option.noConfusion h
  | succ fuel ih =>
    intro cur c hcur h
    rw [GameState.searchActor] at h
    split at h
    · exact (Option.some.injEq _ _).mp h ▸ hcur
    · dsimp only at h
      split at h
      · exact Option.noConfusion h
      · exact ih _ c (Nat.mod_lt _ (by omega)) h

/-- The needs-to-act walk returns a valid seat when started at one. -/
theorem findNeedsToAct_lt (s : GameState) (mb : Int) :
    ∀ (fuel cur c : Nat), cur < s.numPlayers →
      GameState.findNeedsToAct s mb cur fuel = some c → c < s.numPlayers := by
  intro fuel
  induction fuel with
  | zero => intro cur c _ h; exact Option.noConfusion h
  | succ fuel ih =>
    intro cur c hcur h
    rw [GameState.findNeedsToAct] at h
    split at h
    · exact ih _ c (Nat.mod_lt _ (by omega)) h
    · dsimp only at h
      split at h <;> split at h <;>
        first
          | exact (Option.some.injEq _ _).mp h ▸ hcur
          | exact ih _ c (Nat.mod_lt _ (by omega)) h

/-- The one-player ante step preserves the pot balance. -/
theorem anteStep_PotInv (st : GameState) (i : Nat) (h : PotInv st)
    (hi : i < st.numPlayers) :
    PotInv (GameState.anteStep st i) ∧
    (GameState.anteStep st i).numPlayers = st.numPlayers := by
  obtain ⟨hl, hs⟩ := h
  have hlen : i < st.contributions.length := by rw [hl]; exact hi
  rw [GameState.anteStep]
  dsimp only
  split <;>
    exact ⟨⟨by dsimp only; rw [si, List.length_set]; exact hl,
            by dsimp only; rw [si, sum_set_int _ _ hlen, gi, hs]; ring⟩, rfl⟩

/-- The ante fold preserves the pot balance. -/
theorem anteFold_PotInv (l : List Nat) : ∀ (st : GameState),
    (∀ i ∈ l, i < st.numPlayers) → PotInv st →
    PotInv (l.foldl GameState.anteStep st) ∧
    (l.foldl GameState.anteStep st).numPlayers = st.numPlayers := by
  induction l with
  | nil => intro st _ h; exact ⟨h, rfl⟩
  | cons x xs ih =>
    intro st hmem h
    obtain ⟨h1, h2⟩ := anteStep_PotInv st x h (hmem x (List.mem_cons_self x xs))
    obtain ⟨h3, h4⟩ := ih (GameState.anteStep st x)
      (fun i hi => by rw [h2]; exact hmem i (List.mem_cons_of_mem x hi)) h1
    rw [List.foldl_cons]
    exact ⟨h3, h4.trans h2⟩

/-- `post_antes` preserves the pot balance. -/
theorem postAntes_PotInv (st : GameState) (h : PotInv st) :
    PotInv (GameState.postAntes st) ∧
    (GameState.postAntes st).numPlayers = st.numPlayers := by
  rw [GameState.postAntes]
  split
  · exact anteFold_PotInv (List.range st.numPlayers) st
      (fun i hi => List.mem_range.mp hi) h
  · exact ⟨h, rfl⟩

/-- Posting a blind preserves the pot balance. -/
theorem postBlind_PotInv (st : GameState) (idx : Nat) (amt : Int)
    (h : PotInv st) (hidx : idx < st.numPlayers) :
    PotInv (GameState.postBlind st idx amt) ∧
    (GameState.postBlind st idx amt).numPlayers = st.numPlayers := by
  obtain ⟨hl, hs⟩ := h
  have hlen : idx < st.contributions.length := by rw [hl]; exact hidx
  rw [GameState.postBlind]
  dsimp only
  split <;>
    exact ⟨⟨by dsimp only; rw [si, List.length_set]; exact hl,
            by dsimp only; rw [si, sum_set_int _ _ hlen, gi, hs]; ring⟩, rfl⟩

/-- `post_antes_and_blinds` preserves the pot balance. -/
theorem postAntesAndBlinds_PotInv (st : GameState) (sbIdx bbIdx : Nat)
    (sbAmt bbAmt : Int) (h : PotInv st) (hsb : sbIdx < st.numPlayers)
    (hbb : bbIdx < st.numPlayers) :
    PotInv (GameState.postAntesAndBlinds st sbIdx bbIdx sbAmt bbAmt) ∧
    (GameState.postAntesAndBlinds st sbIdx bbIdx sbAmt bbAmt).numPlayers =
      st.numPlayers := by
  obtain ⟨hA, hAn⟩ := postAntes_PotInv st h
  obtain ⟨hB, hBn⟩ := postBlind_PotInv (GameState.postAntes st) sbIdx sbAmt hA
    (by rw [hAn]; exact hsb)
  obtain ⟨hC, hCn⟩ :=
    postBlind_PotInv (GameState.postBlind (GameState.postAntes st) sbIdx sbAmt)
      bbIdx bbAmt hB (by rw [hBn, hAn]; exact hbb)
  rw [GameState.postAntesAndBlinds]
  dsimp only
  exact ⟨⟨hC.1, hC.2⟩, hCn.trans (hBn.trans hAn)⟩

/-- The blank constructor state is balanced. -/
theorem mkBase_PotInv (n : Nat) (stack ante : Int) (btn : Nat) :
    PotInv (GameState.mkBase n stack ante btn) := by
  constructor
  · simp [GameState.mkBase]
  · simp [GameState.mkBase, List.sum_replicate]

/-- The small-blind seat is a valid seat. -/
theorem sbIndex_lt (n btn : Nat) (hn : 0 < n) (hb : btn < n) :
    GameState.sbIndex n btn < n := by
  rw [GameState.sbIndex]
  split
  · exact hb
  · exact Nat.mod_lt _ hn

/-- The big-blind seat is a valid seat. -/
theorem bbIndex_lt (n btn : Nat) (hn : 0 < n) :
    GameState.bbIndex n btn < n := by
  rw [GameState.bbIndex]
  split <;> exact Nat.mod_lt _ hn

/-- The constructor's walk start is a valid seat. -/
theorem firstIndex_lt (n btn : Nat) (hn : 0 < n) (hb : btn < n) :
    GameState.firstIndex n btn < n := by
  rw [GameState.firstIndex]
  split
  · exact sbIndex_lt n btn hn hb
  · exact Nat.mod_lt _ hn

/-- Every state the constructor builds from validated arguments is
balanced and has a valid acting player while live. -/
theorem mkGameState_inv (n : Nat) (stack ante : Int) (btn : Nat)
    (hn : 2 ≤ n) (hb : btn < n) :
    PotInv (GameState.mkGameState n stack ante btn) ∧
    CurInv (GameState.mkGameState n stack ante btn) := by
  have hn0 : 0 < n := by omega
  obtain ⟨hP, hN⟩ := postAntesAndBlinds_PotInv (GameState.mkBase n stack ante btn)
    (GameState.sbIndex n btn) (GameState.bbIndex n btn)
    SMALL_BLIND_AMOUNT BIG_BLIND_AMOUNT (mkBase_PotInv n stack ante btn)
    (sbIndex_lt n btn hn0 hb) (bbIndex_lt n btn hn0)
  rw [GameState.mkGameState]
  split
  · rename_i c hsr
    refine ⟨⟨hP.1, hP.2⟩, ?_⟩
    intro _
    dsimp only
    refine ⟨by exact_mod_cast Nat.zero_le c, ?_⟩
    have hflt : GameState.firstIndex n btn <
        (GameState.postAntesAndBlinds (GameState.mkBase n stack ante btn)
          (GameState.sbIndex n btn) (GameState.bbIndex n btn)
          SMALL_BLIND_AMOUNT BIG_BLIND_AMOUNT).numPlayers := by
      rw [hN]; exact firstIndex_lt n btn hn0 hb
    have hc := searchActor_lt _ (GameState.firstIndex n btn) (n + 1)
      (GameState.firstIndex n btn) c hflt hsr
    exact_mod_cast hc
  · rename_i hsr
    refine ⟨⟨hP.1, hP.2⟩, ?_⟩
    intro h
    simp at h

/-- Street advancement leaves a valid acting player (or ends the hand). -/
theorem advance_CurInv (s4 : GameState) (hn : 0 < s4.numPlayers) :
    CurInv (GameState.advanceToNextStreet s4) := by
  have hn' : 0 < (GameState.streetAdvanced s4).numPlayers := hn
  rw [GameState.advanceToNextStreet]
  split
  · intro h; simp at h
  · split
    · rename_i c hsr
      intro _
      dsimp only
      have hc := searchActor_lt (GameState.streetAdvanced s4)
        (((GameState.streetAdvanced s4).button + 1) %
          (GameState.streetAdvanced s4).numPlayers)
        ((GameState.streetAdvanced s4).numPlayers + 1)
        (((GameState.streetAdvanced s4).button + 1) %
          (GameState.streetAdvanced s4).numPlayers)
        c (Nat.mod_lt _ hn') hsr
      exact ⟨by exact_mod_cast Nat.zero_le c, by exact_mod_cast hc⟩
    · split
      · intro h; simp at h
      · intro _
        dsimp only
        exact ⟨by exact_mod_cast Nat.zero_le _,
               by exact_mod_cast Nat.mod_lt _ hn'⟩

/-- When `update_next_player` finds an actor, that actor is a valid seat. -/
theorem updateNextPlayer_CurInv (s2 : GameState) (hgo : s2.gameOver = false)
    (hcur : 0 ≤ s2.currentPlayer ∧ s2.currentPlayer < (s2.numPlayers : Int))
    (hne : (GameState.updateNextPlayer s2).currentPlayer ≠ -1) :
    CurInv (GameState.updateNextPlayer s2) := by
  by_cases hact : s2.activePlayers ≤ 1
  · exfalso
    apply hne
    rw [GameState.updateNextPlayer, if_neg (by simp [hgo]), if_pos hact]
    dsimp only
    split <;> rfl
  · rw [GameState.updateNextPlayer, if_neg (by simp [hgo]), if_neg hact] at hne ⊢
    dsimp only at hne ⊢
    rcases hfind : GameState.findNeedsToAct s2 s2.maxBet
        ((s2.currentPlayer + 1) % (s2.numPlayers : Int)).toNat s2.numPlayers with _ | nxt
    · rw [hfind] at hne
      simp at hne
    · intro _
      dsimp only
      have hnz : (s2.numPlayers : Int) ≠ 0 := by omega
      have h1 := Int.emod_nonneg (s2.currentPlayer + 1) hnz
      have h2 := Int.emod_lt_of_pos (s2.currentPlayer + 1)
        (show (0 : Int) < (s2.numPlayers : Int) by omega)
      have hstart : ((s2.currentPlayer + 1) % (s2.numPlayers : Int)).toNat <
          s2.numPlayers := by omega
      have hlt := findNeedsToAct_lt s2 s2.maxBet s2.numPlayers _ nxt hstart hfind
      exact ⟨by exact_mod_cast Nat.zero_le nxt, by exact_mod_cast hlt⟩

/-- The post-switch processing leaves a valid acting player while live. -/
theorem postProcess_CurInv (s2 : GameState) (hgo : s2.gameOver = false)
    (hcur : 0 ≤ s2.currentPlayer ∧ s2.currentPlayer < (s2.numPlayers : Int)) :
    CurInv (GameState.postProcess s2) := by
  rw [GameState.postProcess]
  split
  · dsimp only
    split
    · intro h; simp at h
    · intro h; simp at h
  · dsimp only
    by_cases hm : (GameState.updateNextPlayer s2).currentPlayer = -1
    · rw [if_pos hm]
      apply advance_CurInv
      rw [(updateNextPlayer_fields s2).2.2]
      omega
    · rw [if_neg hm]
      exact updateNextPlayer_CurInv s2 hgo hcur hm

/-- A successful `apply_action` preserves the pot balance and the validity
of the acting player. -/
theorem applyAction_inv (s : GameState) (a : Action) (s' : GameState)
    (hPot : PotInv s) (hCur : CurInv s)
    (hap : GameState.applyAction s a = (s', none)) :
    PotInv s' ∧ CurInv s' := by
  rw [GameState.applyAction] at hap
  by_cases hgo : s.gameOver = true
  · rw [if_pos hgo] at hap
    injection hap with h1 h2
    subst h1
    exact ⟨hPot, hCur⟩
  · rw [if_neg hgo] at hap
    have hgof : s.gameOver = false := by simpa using hgo
    by_cases hp : a.player ≠ s.currentPlayer
    · rw [if_pos hp] at hap
      injection hap with h1 h2
      exact Option.noConfusion h2
    · rw [if_neg hp] at hap
      push_neg at hp
      obtain ⟨hc0, hclt⟩ := hCur hgof
      rcases hsw : GameState.applySwitch (GameState.recordAction s a) a with ⟨s2, err⟩
      rw [hsw] at hap
      cases err with
      | some e =>
        injection hap with h1 h2
        exact Option.noConfusion h2
      | none =>
        injection hap with h1 h2
        subst h1
        obtain ⟨hfields, hnp, hgov, hcp⟩ :=
          applySwitch_fields (GameState.recordAction s a) a s2 none hsw
        have hnp' : s2.numPlayers = s.numPlayers := hnp
        have hgov' : s2.gameOver = false := by rw [hgov]; exact hgof
        have hcp' : s2.currentPlayer = s.currentPlayer := hcp
        have hPot2 : PotInv s2 := by
          obtain ⟨hl, hsum⟩ := hPot
          rcases hfields with ⟨hc, hpt⟩ | ⟨amt, hc, hpt⟩
          · constructor
            · rw [show s2.contributions = s.contributions from hc, hnp']
              exact hl
            · rw [show s2.contributions = s.contributions from hc,
                  show s2.pot = s.pot from hpt]
              exact hsum
          · have hplt : a.player.toNat < s.contributions.length := by
              rw [hl]; omega
            have h0p : 0 ≤ a.player := by omega
            constructor
            · rw [show s2.contributions = siI s.contributions a.player
                    (giI s.contributions a.player + amt) from hc, siI_length, hnp']
              exact hl
            · rw [show s2.contributions = siI s.contributions a.player
                    (giI s.contributions a.player + amt) from hc,
                  show s2.pot = s.pot + amt from hpt,
                  sum_chip_update s.contributions a.player amt h0p hplt, hsum]
        have hCur2pre : 0 ≤ s2.currentPlayer ∧
            s2.currentPlayer < (s2.numPlayers : Int) := by
          rw [hcp', hnp']; exact ⟨hc0, hclt⟩
        obtain ⟨hf1, hf2, hf3⟩ := postProcess_fields s2
        constructor
        · exact ⟨by rw [hf1, hf3]; exact hPot2.1, by rw [hf1, hf2]; exact hPot2.2⟩
        · exact postProcess_CurInv s2 hgov' hCur2pre

/-- The states reachable from a constructor call that passes the two
`std::invalid_argument` validations (at least two players, button a valid
seat), through any sequence of successful `apply_action` calls. -/
inductive Reachable : GameState → Prop where
  | init (n : Nat) (stack ante : Int) (btn : Nat) (hn : 2 ≤ n) (hb : btn < n) :
      Reachable (GameState.mkGameState n stack ante btn)
  | step (s : GameState) (a : Action) (s' : GameState) (hs : Reachable s)
      (h : GameState.applyAction s a = (s', none)) : Reachable s'

/-- Every reachable state is balanced and, while live, has a valid acting
player. -/
theorem reachable_inv (s : GameState) (h : Reachable s) : PotInv s ∧ CurInv s := by
  induction h with
  | init n stack ante btn hn hb => exact mkGameState_inv n stack ante btn hn hb
  | step s a s' hs hap ih => exact applyAction_inv s a s' ih.1 ih.2 hap

/-! ## Concrete states used by the theorems -/

/-- The heads-up initial state `GameState(2, 100, 0, 0)`. -/
def huInitialState : GameState := GameState.mkGameState 2 100 0 0

/-- The state after the small blind (player 0, the button) limps. -/
def huAfterLimp : GameState :=
  (GameState.applyAction huInitialState { type := .CALL, amount := 0, player := 0 }).1

/-- The state after the limp and the big blind's check: the preflop round
has closed and the flop betting round has begun. -/
def huAfterLimpCheck : GameState :=
  (GameState.applyAction huAfterLimp { type := .CHECK, amount := 0, player := 1 }).1

/-- The heads-up initial state with hole cards dealt (as `train` does
before traversing). -/
def huInitialWithHands : GameState :=
  { huInitialState with hands := [["2c", "2d"], ["3c", "3d"]] }

/-- A trivial black-box 7-card ranker for concrete evaluations (the ranker
is irrelevant on every path the concrete runs reach). -/
def rankZero : List Card → List Card → Int := fun _ _ => 0

/-! ## C8 -/

/-- C8: when the terminal payoff of `cfr_plus_recursive` is computed on a
state where the traversing player has not folded, two or more unfolded
players remain, and the board is incomplete (fewer than 5 community
cards), the computation returns exactly 0 for the traversing player: each
pot segment is split equally among all its eligible players, so every
showdown player recovers exactly their own contribution. -/
theorem C8_incomplete_board_payoff (rank : List Card → List Card → Int)
    (s : GameState) (t : Int)
    (hf : s.hasPlayerFolded t = false)
    (hcnt : 2 ≤ ((List.range s.numPlayers).filter
      (fun i => ¬ s.hasPlayerFolded (Int.ofNat i))).length)
    (hb : s.communityCards.length < 5)
    (hpos : ∀ c ∈ s.contributions, 0 ≤ c) :
    terminalPayoff rank s t = 0 := by
  have hb5 : ¬ s.communityCards.length = 5 := by omega
  have htrange : ¬ (t < 0 ∨ (s.numPlayers : Int) ≤ t) := by
    intro hc
    rw [GameState.hasPlayerFolded, if_pos hc] at hf
    exact Bool.noConfusion hf
  have ht0 : 0 ≤ t := by omega
  have htn : Int.ofNat t.toNat = t := by
    rw [Int.ofNat_eq_natCast, Int.toNat_of_nonneg ht0]
  have htlt : t.toNat < s.numPlayers := by omega
  have hmemshow : t.toNat ∈ (List.range s.numPlayers).filter
      (fun i => ¬ s.hasPlayerFolded (Int.ofNat i)) := by
    refine List.mem_filter.mpr ⟨List.mem_range.mpr htlt, ?_⟩
    rw [htn, hf]
    decide
  rw [terminalPayoff]
  simp only [hf, Bool.false_eq_true, if_false]
  rw [if_neg (by omega)]
  rw [if_pos (by omega)]
  rw [← htn]
  rw [potLoop_telescope rank s t.toNat
      ((s.getPlayerContribution (Int.ofNat t.toNat) : ℚ)) hb5 _ 0 _ 0
      (sortPairs_fst_mono _)
      (by
        intro x hx
        rcases (mem_sortPairsByContribution x _ []).mp hx with hacc | hl
        · simp at hacc
        · rcases List.mem_map.mp hl with ⟨i, _, rfl⟩
          show (0 : ℚ) ≤ ((s.getPlayerContribution (Int.ofNat i) : Int) : ℚ)
          exact_mod_cast getPlayerContribution_nonneg s hpos (Int.ofNat i))
      hmemshow
      (List.Nodup.filter _ (List.nodup_range s.numPlayers))
      (by
        refine (mem_sortPairsByContribution _ _ []).mpr (Or.inr ?_)
        exact List.mem_map.mpr ⟨t.toNat, hmemshow, rfl⟩)
      (by
        intro x hx h2
        rcases (mem_sortPairsByContribution x _ []).mp hx with hacc | hl
        · simp at hacc
        · rcases List.mem_map.mp hl with ⟨i, _, rfl⟩
          simp only at h2
          rw [h2])]
  ring

/-- Witness for C8: the payoff of the heads-up pre-deal state (both
players unfolded, empty board) is exactly 0 for player 0. -/
theorem C8_witness :
    terminalPayoff rankZero huInitialWithHands 0 = 0 := by
  have h1 : huInitialWithHands.hasPlayerFolded 0 = false := by decide
  have h2 : 2 ≤ ((List.range huInitialWithHands.numPlayers).filter
      (fun i => ¬ huInitialWithHands.hasPlayerFolded (Int.ofNat i))).length := by decide
  have h3 : huInitialWithHands.communityCards.length < 5 := by decide
  have h4 : ∀ c ∈ huInitialWithHands.contributions, 0 ≤ c := by decide
  exact C8_incomplete_board_payoff rankZero huInitialWithHands 0 h1 h2 h3 h4

/-! ## C6 -/

/-- C6: from the heads-up initial state `new(2, 100, 0, 0)`,
`apply_action(Raise, amount = 3, player = 0)` is rejected as illegal with
the sub-minimum-increment error (increment 1 against minimum 2 = one big
blind, and the action is not all-in), whereas
`apply_action(Raise, amount = 4, player = 0)` succeeds. -/
theorem C6_min_raise_enforcement :
    (GameState.applyAction huInitialState { type := .RAISE, amount := 3, player := 0 }).2 =
      some "Invalid raise amount: Raise increment is less than minimum" ∧
    (GameState.applyAction huInitialState { type := .RAISE, amount := 4, player := 0 }).2 =
      none := by
  constructor <;> rfl

/-! ## C7 -/

/-- C7: at the heads-up initial state `new(2, 100, 0, 0)` (small blind,
button, player 0 to act, no raise this street),
`get_possible_action_specs` returns `[Fold, Call]` — not the
`[Call, Raise 3.0 BB, Raise 4.0 BB]` that the claim, the in-code comment
("The test `PreflopSBInitialActionsHU` expects only CALL/RAISE options"),
and the test `ActionAbstractionTest.PreflopSBInitialActionsHU`
(`EXPECT_EQ(actions.size(), 3)` with Call/Raise 3bb/Raise 4bb) demand:
`get_raises_this_street()` counts the big-blind post as a raise level, so
both `num_raises == 0` guards are dead at this state, no raise spec is
inserted, and the Fold removal never fires. -/
theorem C7_hu_sb_initial_actions :
    ActionAbstraction.getPossibleActionSpecs huInitialState =
      [{ type := .FOLD, value := 0, unit := .BB },
       { type := .CALL, value := 0, unit := .BB }] := by
  rfl

/-! ## C3 -/

/-- C3, counterexample: the heads-up initial state is reachable (by
construction, before any action), and there
`Σ contribution[i] = 3` while `pot + Σ bets_this_round[i] = 3 + 3 = 6`:
the claimed identity fails because `pot_size_` already contains the
current street's unswept bets. -/
theorem C3_counterexample :
    huInitialState.contributions.sum ≠
      huInitialState.pot + huInitialState.betsThisRound.sum := by
  decide

/-! ## C2 -/

/-- C2, counterexample: from the heads-up initial state
`new(2, 100, 0, 0)`, applying Call by player 0 and Check by player 1 does
reach the flop with `bets_this_round = [0, 0]` and `pot = 4`, but the
first player to act is player 1 (the big blind), not player 0 (the
button) as the claim states: `advance_to_next_street` always starts its
seat walk at `(button + 1) % N`, heads-up included. -/
theorem C2_counterexample :
    huAfterLimpCheck.street = .FLOP ∧
    huAfterLimpCheck.betsThisRound = [0, 0] ∧
    huAfterLimpCheck.pot = 4 ∧
    huAfterLimpCheck.currentPlayer = 1 ∧
    ¬ huAfterLimpCheck.currentPlayer = 0 := by
  refine ⟨rfl, rfl, rfl, rfl, by decide⟩

/-- `firstEligible` depends only on the player count and the all-in and
folded flags. -/
theorem firstEligible_congr (s1 s2 : GameState) (start : Nat)
    (h1 : s1.numPlayers = s2.numPlayers) (h2 : s1.allIn = s2.allIn)
    (h3 : s1.folded = s2.folded) :
    firstEligible s1 start = firstEligible s2 start := by
  rw [firstEligible, firstEligible, h1, h2, h3]

/-- C2, amended: whenever a betting round closes on a street before the
river, `advance_to_next_street` makes the first player to act on the next
street the first unfolded, non-all-in player starting at
`(button + 1) mod N` — in heads-up games included, so the big blind (the
non-button player) acts first postflop, not the button.  In particular,
from the heads-up initial state `new(2, 100, 0, 0)`, applying Call by
player 0 then Check by player 1 yields street = Flop,
`bets_this_round = [0, 0]`, `pot = 4`, and current player = 1. -/
theorem C2_postflop_first_actor :
    (∀ (s : GameState) (c : Nat), 0 < s.numPlayers →
      (s.street = .PREFLOP ∨ s.street = .FLOP ∨ s.street = .TURN) →
      firstEligible s ((s.button + 1) % s.numPlayers) = some c →
      (GameState.advanceToNextStreet s).street = GameState.nextStreet s.street ∧
      (GameState.advanceToNextStreet s).currentPlayer = (c : Int) ∧
      (GameState.advanceToNextStreet s).betsThisRound =
        List.replicate s.numPlayers 0) ∧
    (huAfterLimpCheck.street = .FLOP ∧ huAfterLimpCheck.currentPlayer = 1 ∧
      huAfterLimpCheck.betsThisRound = [0, 0] ∧ huAfterLimpCheck.pot = 4) := by
  constructor
  · intro s c hn hst hfe
    have hnr : ¬ (s.street = Street.RIVER ∨ s.street = Street.SHOWDOWN) := by
      rcases hst with h | h | h <;> rw [h] <;> rintro (hc | hc) <;> exact Street.noConfusion hc
    have hsearch : GameState.searchActor (GameState.streetAdvanced s)
        (((GameState.streetAdvanced s).button + 1) % (GameState.streetAdvanced s).numPlayers)
        (((GameState.streetAdvanced s).button + 1) % (GameState.streetAdvanced s).numPlayers)
        ((GameState.streetAdvanced s).numPlayers + 1) = some c := by
      rw [searchActor_eq_firstEligible (GameState.streetAdvanced s) hn _ (Nat.mod_lt _ hn)]
      rw [firstEligible_congr (GameState.streetAdvanced s) s _ rfl rfl rfl]
      exact hfe
    rw [GameState.advanceToNextStreet, if_neg hnr, hsearch]
    exact ⟨rfl, rfl, rfl⟩
  · exact ⟨rfl, rfl, rfl, rfl⟩

/-- Witness for C2: the amended first-actor rule applied to the heads-up
initial state, whose first eligible seat from `(button + 1) mod 2 = 1` is
player 1. -/
theorem C2_witness :
    0 < huInitialState.numPlayers ∧
    (huInitialState.street = .PREFLOP ∨ huInitialState.street = .FLOP ∨
      huInitialState.street = .TURN) ∧
    firstEligible huInitialState ((huInitialState.button + 1) % huInitialState.numPlayers) =
      some 1 ∧
    (GameState.advanceToNextStreet huInitialState).street =
      GameState.nextStreet huInitialState.street ∧
    (GameState.advanceToNextStreet huInitialState).currentPlayer = (1 : Int) ∧
    (GameState.advanceToNextStreet huInitialState).betsThisRound =
      List.replicate huInitialState.numPlayers 0 := by
  refine ⟨by decide, Or.inl rfl, by decide, ?_⟩
  exact C2_postflop_first_actor.1 huInitialState 1 (by decide) (Or.inl rfl) (by decide)

/-! ## C5 -/

/-- C5, counterexample: after Call then Check from the heads-up initial
state, `get_history_string` returns `"c_k"` — tokens are separated by
`'_'`, there is no `"s/b/"` blind prefix (the blind posts are not recorded
in the action history at all), and the initial state's history string is
empty rather than `"s/b/"`. -/
theorem C5_counterexample :
    GameState.getHistoryString huAfterLimpCheck = "c_k" ∧
    (GameState.historyChars huAfterLimpCheck.history).take 4 ≠ "s/b/".data ∧
    GameState.getHistoryString huInitialState = "" := by
  refine ⟨rfl, by decide, rfl⟩

/-- The specification-worded join: one token per applied action, tokens
separated by the `'_'` separator character. -/
def joinTok : List (List Char) → List Char
  | [] => []
  | [t] => t
  | t :: ts => t ++ '_' :: joinTok ts

/-- The flat token stream the history fold produces before the trailing
separator is popped. -/
def tokensFlat : List Action → List Char
  | [] => []
  | a :: as => GameState.tokenOf a ++ '_' :: tokensFlat as

/-- The history fold appends the flat token stream to its accumulator. -/
theorem foldl_tokensFlat (acts : List Action) : ∀ acc : List Char,
    acts.foldl (fun acc a => acc ++ GameState.tokenOf a ++ ['_']) acc =
      acc ++ tokensFlat acts := by
  induction acts with
  | nil => intro acc; simp [tokensFlat]
  | cons a as ih =>
    intro acc
    rw [List.foldl_cons, ih]
    simp [tokensFlat]

/-- `tokensFlat` of a nonempty history is nonempty (it ends in the
separator). -/
theorem tokensFlat_ne_nil (a : Action) (as : List Action) :
    tokensFlat (a :: as) ≠ [] := by
  simp only [tokensFlat]
  intro hc
  exact absurd (congrArg List.length hc) (by simp)

/-- Popping the trailing separator from the flat token stream yields the
`'_'`-joined token list. -/
theorem dropLast_tokensFlat (acts : List Action) :
    (tokensFlat acts).dropLast = joinTok (acts.map GameState.tokenOf) := by
  induction acts with
  | nil => rfl
  | cons a as ih =>
    cases as with
    | nil => simp [tokensFlat, joinTok]
    | cons b bs =>
      have hflat : tokensFlat (a :: b :: bs) =
          GameState.tokenOf a ++ '_' :: tokensFlat (b :: bs) := rfl
      rw [hflat]
      have h2 : GameState.tokenOf a ++ '_' :: tokensFlat (b :: bs) =
          (GameState.tokenOf a ++ ['_']) ++ tokensFlat (b :: bs) := by simp
      rw [h2, List.dropLast_append_of_ne_nil _ (tokensFlat_ne_nil b bs), ih]
      simp [joinTok]

/-- C5, amended: for every `GameState`, the history string returned by
`get_history_string` is exactly the per-action tokens joined by the `'_'`
separator (no blind prefix, no trailing separator; empty with no
actions), and every token is one of `f`, `k`, `c`, `b<integer-total>`,
`r<integer-total>`. -/
theorem C5_history_string_format (s : GameState) :
    GameState.getHistoryString s =
      String.mk (joinTok (s.history.map GameState.tokenOf)) ∧
    ∀ a ∈ s.history,
      GameState.tokenOf a = ['f'] ∨ GameState.tokenOf a = ['k'] ∨
      GameState.tokenOf a = ['c'] ∨
      (∃ n : Int, GameState.tokenOf a = 'b' :: (toString n).data) ∨
      (∃ n : Int, GameState.tokenOf a = 'r' :: (toString n).data) := by
  constructor
  · rw [GameState.getHistoryString, GameState.historyChars,
        foldl_tokensFlat, List.nil_append, dropLast_tokensFlat]
  · intro a _
    cases h : a.type
    case FOLD => exact Or.inl (by simp [GameState.tokenOf, h])
    case CHECK => exact Or.inr (Or.inl (by simp [GameState.tokenOf, h]))
    case CALL => exact Or.inr (Or.inr (Or.inl (by simp [GameState.tokenOf, h])))
    case BET =>
      exact Or.inr (Or.inr (Or.inr (Or.inl ⟨a.amount, by simp [GameState.tokenOf, h]⟩)))
    case RAISE =>
      exact Or.inr (Or.inr (Or.inr (Or.inr ⟨a.amount, by simp [GameState.tokenOf, h]⟩)))

/-- Witness for C5: the amended format theorem evaluated on the concrete
limp-check state, whose history string is `"c_k"` and whose first token is
the call token `c`. -/
theorem C5_witness :
    GameState.getHistoryString huAfterLimpCheck =
      String.mk (joinTok (huAfterLimpCheck.history.map GameState.tokenOf)) ∧
    (GameState.tokenOf { type := .CALL, amount := 0, player := 0 } = ['f'] ∨
     GameState.tokenOf { type := .CALL, amount := 0, player := 0 } = ['k'] ∨
     GameState.tokenOf { type := .CALL, amount := 0, player := 0 } = ['c'] ∨
     (∃ n : Int, GameState.tokenOf { type := .CALL, amount := 0, player := 0 } =
        'b' :: (toString n).data) ∨
     (∃ n : Int, GameState.tokenOf { type := .CALL, amount := 0, player := 0 } =
        'r' :: (toString n).data)) :=
  ⟨(C5_history_string_format huAfterLimpCheck).1,
   (C5_history_string_format huAfterLimpCheck).2 _ (by decide)⟩

/-! ## C10 -/

/-- The error paths of the `apply_action` switch leave the state exactly as
it was when the switch was entered (no mutation precedes a throw inside
the switch). -/
theorem applySwitch_error_eq (s : GameState) (a : Action) (s2 : GameState)
    (e : String) (h : GameState.applySwitch s a = (s2, some e)) : s2 = s := by
  cases hty : a.type <;> simp only [GameState.applySwitch, hty] at h <;>
    repeat' split at h
  all_goals
    first
      | exact (show s = s2 from congrArg Prod.fst h).symm
      | exact Option.noConfusion (show (none : Option String) = some e from congrArg Prod.snd h)

/-- C10: whenever `apply_action` throws on an illegal action after the
preconditions passed (state not over, correct player), the rejected action
has already been appended to the action history, the acting player's
acted-this-sequence flag has been set, and the per-round action counter
has been incremented; the state is not rolled back (the returned state is
the partially mutated one). -/
theorem C10_apply_action_not_atomic (s : GameState) (a : Action)
    (s' : GameState) (e : String)
    (hover : s.gameOver = false) (hp : a.player = s.currentPlayer)
    (h : GameState.applyAction s a = (s', some e)) :
    s'.history = s.history ++ [a] ∧
    s'.acted = sbI s.acted a.player true ∧
    s'.actionsThisRound = s.actionsThisRound + 1 := by
  rw [GameState.applyAction, hover] at h
  rw [if_neg (by simp), if_neg (not_not_intro hp)] at h
  rcases hsw : GameState.applySwitch (GameState.recordAction s a) a with ⟨s2, err⟩
  rw [hsw] at h
  cases err with
  | none => exact Option.noConfusion (show (none : Option String) = some e from congrArg Prod.snd h)
  | some e2 =>
    have hs2 : s2 = s' := congrArg Prod.fst h
    have heq := applySwitch_error_eq _ _ _ _ hsw
    subst hs2
    rw [heq]
    exact ⟨rfl, rfl, rfl⟩

/-- Witness for C10: the Check-facing-a-bet rejection at the heads-up
initial state. -/
theorem C10_witness :
    huInitialState.gameOver = false ∧
    (0 : Int) = huInitialState.currentPlayer ∧
    ((GameState.applyAction huInitialState { type := .CHECK, amount := 0, player := 0 }).1.history =
        huInitialState.history ++ [{ type := .CHECK, amount := 0, player := 0 }] ∧
      (GameState.applyAction huInitialState { type := .CHECK, amount := 0, player := 0 }).1.acted =
        sbI huInitialState.acted 0 true ∧
      (GameState.applyAction huInitialState { type := .CHECK, amount := 0, player := 0 }).1.actionsThisRound =
        huInitialState.actionsThisRound + 1) :=
  ⟨rfl, rfl,
    C10_apply_action_not_atomic huInitialState _ _
      "Invalid action: Check when facing a bet." rfl rfl rfl⟩


/-! ## C3 and C9: the pot/contribution ledger -/

/-- `GameState::get_pot_size`. -/
def GameState.getPotSize (s : GameState) : Int := s.pot

/-- Summing positional reads over all valid indices gives the list sum. -/
theorem sum_getD_range : ∀ (l : List Int),
    ((List.range l.length).map (fun i => l.getD i 0)).sum = l.sum := by
  intro l
  induction l with
  | nil => rfl
  | cons x xs ih =>
    rw [List.length_cons, List.range_succ_eq_map, List.map_cons, List.map_map,
      List.sum_cons]
    have hcomp : ((fun i => (x :: xs).getD i 0) ∘ Nat.succ) =
        (fun i => xs.getD i 0) := by
      funext i; rfl
    rw [hcomp, ih]
    rfl

/-- Over a state whose contribution vector has one entry per player, the
public getter sums to the raw vector sum. -/
theorem sum_contrib_range (s : GameState)
    (hl : s.contributions.length = s.numPlayers) :
    ((List.range s.numPlayers).map
      (fun i => s.getPlayerContribution (Int.ofNat i))).sum =
      s.contributions.sum := by
  have hmap : ∀ i ∈ List.range s.numPlayers,
      s.getPlayerContribution (Int.ofNat i) = s.contributions.getD i 0 := by
    intro i hi
    have hi' := List.mem_range.mp hi
    have h1 : ¬(Int.ofNat i < 0 ∨ (s.numPlayers : Int) ≤ Int.ofNat i) := by
      rw [Int.ofNat_eq_coe]; omega
    have h2 : (0 : Int) ≤ Int.ofNat i := by rw [Int.ofNat_eq_coe]; omega
    rw [GameState.getPlayerContribution, if_neg h1, giI, if_pos h2, gi]
    simp [Int.ofNat_eq_coe]
  rw [List.map_congr_left hmap, ← hl, sum_getD_range]

/-- C3: the claimed ledger identity
`Σ contribution[i] = pot + Σ bets_this_round[i]` is false (see the
counterexample); the identity the code actually maintains on every state
reachable from a validated constructor call through successful
`apply_action` calls is `Σ contribution[i] = pot` — `pot_size_` is
updated with every chip that leaves a stack, so it already includes the
current street's unswept bets. -/
theorem C3_pot_balance (s : GameState) (h : Reachable s) :
    s.contributions.sum = s.pot :=
  (reachable_inv s h).1.2

theorem C3_witness :
    Reachable huInitialState ∧
      huInitialState.contributions.sum = huInitialState.pot :=
  ⟨Reachable.init 2 100 0 0 (by omega) (by omega),
   C3_pot_balance huInitialState (Reachable.init 2 100 0 0 (by omega) (by omega))⟩

/-- C9: on every reachable state `get_pot_size()` equals the sum of
`get_player_contribution(i)` over all seats; the `apply_action` switch
either moves no chips or adds the same delta to the acting player's
contribution and to the pot in the same step; and street advancement
changes neither the pot nor the contributions. -/
theorem C9_pot_equals_contribution_sum :
    (∀ s : GameState, Reachable s →
      ((List.range s.numPlayers).map
        (fun i => s.getPlayerContribution (Int.ofNat i))).sum = s.getPotSize) ∧
    (∀ (s : GameState) (a : Action) (s2 : GameState) (err : Option String),
      GameState.applySwitch s a = (s2, err) →
      (s2.contributions = s.contributions ∧ s2.pot = s.pot) ∨
      ∃ amt, s2.contributions =
          siI s.contributions a.player (giI s.contributions a.player + amt) ∧
        s2.pot = s.pot + amt) ∧
    (∀ s : GameState, (GameState.advanceToNextStreet s).pot = s.pot ∧
      (GameState.advanceToNextStreet s).contributions = s.contributions) := by
  refine ⟨?_, ?_, ?_⟩
  · intro s h
    obtain ⟨⟨hl, hsum⟩, -⟩ := reachable_inv s h
    rw [sum_contrib_range s hl, hsum]
    rfl
  · intro s a s2 err hsw
    exact (applySwitch_fields s a s2 err hsw).1
  · intro s
    obtain ⟨h1, h2, -⟩ := advanceToNextStreet_fields s
    exact ⟨h2, h1⟩

theorem C9_witness :
    Reachable huInitialState ∧
      ((List.range huInitialState.numPlayers).map
        (fun i => huInitialState.getPlayerContribution (Int.ofNat i))).sum =
        huInitialState.getPotSize :=
  ⟨Reachable.init 2 100 0 0 (by omega) (by omega),
   C9_pot_equals_contribution_sum.1 huInitialState
     (Reachable.init 2 100 0 0 (by omega) (by omega))⟩


/-! ## C1: traversal shape of `cfr_plus_recursive` -/

/-- One loop iteration either expands or skips the action — never both,
never neither — and contributes log entries only through the child call. -/
theorem cfrStep_counts
    (child : GameState → List ℚ → Nat → NodeMap → ℚ × NodeMap × List TraceEntry)
    (s : GameState) (es : Street) (tp : Int) (reach σ : List ℚ)
    (deck : List Card) (ci : Nat) (spec : ActionSpec) (i : Nat)
    (acc : LoopState) :
    (cfrStep child s es tp reach σ deck ci spec i acc).expanded +
        (cfrStep child s es tp reach σ deck ci spec i acc).skipped =
      acc.expanded + acc.skipped + 1 ∧
    ∀ e ∈ (cfrStep child s es tp reach σ deck ci spec i acc).logs,
      e ∈ acc.logs ∨ ∃ st r ci2 mp, e ∈ (child st r ci2 mp).2.2 := by
  rw [cfrStep]
  dsimp only
  split
  · exact ⟨by dsimp only; omega, fun e he => Or.inl he⟩
  · split
    · exact ⟨by dsimp only; omega, fun e he => Or.inl he⟩
    · split
      · split
        · exact ⟨by dsimp only; omega, fun e he => Or.inl he⟩
        · refine ⟨by dsimp only; omega, ?_⟩
          intro e he
          rcases List.mem_append.mp he with h | h
          · exact Or.inl h
          · exact Or.inr ⟨_, _, _, _, h⟩
      · split
        · exact ⟨by dsimp only; omega, fun e he => Or.inl he⟩
        · refine ⟨by dsimp only; omega, ?_⟩
          intro e he
          rcases List.mem_append.mp he with h | h
          · exact Or.inl h
          · exact Or.inr ⟨_, _, _, _, h⟩

/-- Over the whole loop: every action is either expanded or skipped, and
every log entry comes from the accumulator or from a child call. -/
theorem cfrLoop_counts
    (child : GameState → List ℚ → Nat → NodeMap → ℚ × NodeMap × List TraceEntry)
    (s : GameState) (es : Street) (tp : Int) (reach σ : List ℚ)
    (deck : List Card) (ci : Nat) :
    ∀ (specs : List ActionSpec) (i : Nat) (acc : LoopState),
      (cfrLoop child s es tp reach σ deck ci specs i acc).expanded +
          (cfrLoop child s es tp reach σ deck ci specs i acc).skipped =
        acc.expanded + acc.skipped + specs.length ∧
      ∀ e ∈ (cfrLoop child s es tp reach σ deck ci specs i acc).logs,
        e ∈ acc.logs ∨ ∃ st r ci2 mp, e ∈ (child st r ci2 mp).2.2 := by
  intro specs
  induction specs with
  | nil =>
    intro i acc
    refine ⟨?_, fun e he => Or.inl he⟩
    show acc.expanded + acc.skipped =
      acc.expanded + acc.skipped + ([] : List ActionSpec).length
    simp
  | cons spec rest ih =>
    intro i acc
    obtain ⟨h1, h2⟩ := ih (i + 1)
      (cfrStep child s es tp reach σ deck ci spec i acc)
    obtain ⟨hs1, hs2⟩ := cfrStep_counts child s es tp reach σ deck ci spec i acc
    constructor
    · show (cfrLoop child s es tp reach σ deck ci rest (i + 1)
            (cfrStep child s es tp reach σ deck ci spec i acc)).expanded +
          (cfrLoop child s es tp reach σ deck ci rest (i + 1)
            (cfrStep child s es tp reach σ deck ci spec i acc)).skipped =
        acc.expanded + acc.skipped + (spec :: rest).length
      rw [h1]
      simp only [List.length_cons]
      omega
    · intro e he
      have he' : e ∈ (cfrLoop child s es tp reach σ deck ci rest (i + 1)
          (cfrStep child s es tp reach σ deck ci spec i acc)).logs := he
      rcases h2 e he' with h | h
      · exact hs2 e h
      · exact Or.inr h

/-- Every entry a `cfrNode` call logs satisfies the traversal-shape
property, provided every child call does. -/
theorem cfrNode_logs (rank : List Card → List Card → Int)
    (child : GameState → List ℚ → Nat → NodeMap → ℚ × NodeMap × List TraceEntry)
    (tp : Int)
    (hchild : ∀ st r ci2 mp, ∀ e ∈ (child st r ci2 mp).2.2,
      e.expanded + e.skipped = e.actions ∧ (e.updated = true ↔ e.player = tp)) :
    ∀ (s : GameState) (reach : List ℚ) (deck : List Card) (ci : Nat) (m : NodeMap),
      ∀ e ∈ (cfrNode rank child s tp reach deck ci m).2.2,
        e.expanded + e.skipped = e.actions ∧ (e.updated = true ↔ e.player = tp) := by
  intro s reach deck ci m e he
  rw [cfrNode] at he
  dsimp only at he
  split at he
  · simp at he
  · split at he
    · simp at he
    · split at he
      · simp at he
      · rcases List.mem_cons.mp he with h | h
        · subst h
          have hc := (cfrLoop_counts
            child s s.street tp reach
            (nodeSigma
              (nodeLookupMap m (infoSetKey s)
                (ActionAbstraction.getPossibleActionSpecs s).length)
              (infoSetKey s) (ActionAbstraction.getPossibleActionSpecs s).length)
            deck ci (ActionAbstraction.getPossibleActionSpecs s) 0
            ⟨[], 0,
              nodeLookupMap m (infoSetKey s)
                (ActionAbstraction.getPossibleActionSpecs s).length, [], 0, 0⟩).1
          constructor
          · dsimp only at hc ⊢
            omega
          · dsimp only
            constructor
            · exact of_decide_eq_true
            · exact fun hh => decide_eq_true hh
        · have hl := (cfrLoop_counts
            child s s.street tp reach
            (nodeSigma
              (nodeLookupMap m (infoSetKey s)
                (ActionAbstraction.getPossibleActionSpecs s).length)
              (infoSetKey s) (ActionAbstraction.getPossibleActionSpecs s).length)
            deck ci (ActionAbstraction.getPossibleActionSpecs s) 0
            ⟨[], 0,
              nodeLookupMap m (infoSetKey s)
                (ActionAbstraction.getPossibleActionSpecs s).length, [], 0, 0⟩).2 e h
          rcases hl with h' | ⟨st, r, ci2, mp, h'⟩
          · simp at h'
          · exact hchild st r ci2 mp e h'

/-- C1, counterexample: with the big blind (player 1) as the traversing
player, the root of the HU toy tree is an opponent node (player 0 acts),
yet its trace entry records both of its two candidate actions expanded
and none skipped — the loop runs over every action at every node, with no
sampling of a single child at opponent nodes (and, correctly, no update
there: `updated = false`). -/
theorem C1_counterexample :
    (cfrPlusRecursive rankZero 1 huInitialWithHands 1 [1, 1] [] 0 []).2.2 =
      [⟨0, 2, 2, 0, false⟩] := by
  decide

/-- C1: what `cfr_plus_recursive` actually does, at every node of every
tree: the per-action loop visits every candidate action — each one is
either expanded (recursed into) or skipped by an explicit `continue`
guard (amount failure, `apply_action` exception, deck exhaustion), with
`expanded + skipped = actions` at traverser and opponent nodes alike, so
opponent nodes are full-width, not sampled down to one child; and the
regret/strategy-sum update runs exactly at the nodes whose acting player
is the traversing player. -/
theorem C1_full_width_traversal (rank : List Card → List Card → Int)
    (tp : Int) (deck : List Card) :
    ∀ (fuel : Nat) (s : GameState) (reach : List ℚ) (ci : Nat) (m : NodeMap),
      ∀ e ∈ (cfrPlusRecursive rank fuel s tp reach deck ci m).2.2,
        e.expanded + e.skipped = e.actions ∧
        (e.updated = true ↔ e.player = tp) := by
  intro fuel
  induction fuel with
  | zero =>
    intro s reach ci m e he
    exact absurd he (List.not_mem_nil e)
  | succ fuel ih =>
    intro s reach ci m
    exact cfrNode_logs rank
      (fun st r ci2 mp => cfrPlusRecursive rank fuel st tp r deck ci2 mp) tp
      (fun st r ci2 mp => ih st r ci2 mp) s reach deck ci m

theorem C1_witness :
    (⟨0, 2, 2, 0, true⟩ : TraceEntry) ∈
        (cfrPlusRecursive rankZero 1 huInitialWithHands 0 [1, 1] [] 0 []).2.2 ∧
      ((2 : Nat) + 0 = 2 ∧ ((true = true) ↔ ((0 : Int) = 0))) :=
  ⟨by decide,
   C1_full_width_traversal rankZero 0 [] 1 huInitialWithHands [1, 1] 0 []
     ⟨0, 2, 2, 0, true⟩ (by decide)⟩

end GtoSolver
